import Mathlib

/-!
Verification of the Power BI documentation generator core: a shallow
embedding, in Lean, of the parser and page-generation pipeline
(`src/parsers/pbip_parser.py`, `src/generators/*.py`, `src/models.py`,
`src/utils/markdown.py`), together with theorems settling the spec claims.

Python strings are modelled as Lean `String` (a list of characters);
Python `str` methods (`strip`, `lower`, `replace`, `split`, `join`,
`startswith`, slicing) are modelled by the `py*` helpers below, restricted
to the whitespace characters that can actually occur inside a line
produced by `str.splitlines` (space, tab, and the line breaks that matter
for stripping multi-line expression values).
-/

namespace PBIDoc

/-- Whitespace predicate modelling Python `str.isspace` / default `strip`
for the characters relevant here: space, tab, carriage return, newline.
(Form feed, vertical tab and the exotic Unicode space characters cannot
occur inside a `splitlines` line and do not occur in the embedded data.) -/
def pyIsSpace (c : Char) : Bool :=
  c = ' ' || c = '\t' || c = '\r' || c = '\n'

/-- Leading-whitespace run of a character list (the part removed by
Python `str.lstrip()`). -/
def leadingWs (l : List Char) : List Char := l.takeWhile pyIsSpace

/-- Model of Python `str.strip()`: remove leading and trailing whitespace. -/
def pyStripList (l : List Char) : List Char :=
  ((l.dropWhile pyIsSpace).reverse.dropWhile pyIsSpace).reverse

/-- Model of Python `str.strip()` on `String`. -/
def pyStrip (s : String) : String := ⟨pyStripList s.data⟩

/-- Model of Python `str.lower()` (ASCII case mapping; the embedded data
and all comparisons in the source involve ASCII letters only). -/
def pyLower (s : String) : String := ⟨s.data.map Char.toLower⟩

/-- Model of Python `s.startswith(p)`. -/
def strStartsWith (p s : String) : Bool := p.data.isPrefixOf s.data

/-- Model of Python `s.endswith(p)`. -/
def strEndsWith (p s : String) : Bool := p.data.isSuffixOf s.data

/-- Model of Python `sep.join(parts)`. -/
def pyJoin (sep : String) : List String → String
  | [] => ""
  | [x] => x
  | x :: (y :: xs) => x ++ sep ++ pyJoin sep (y :: xs)

/-- Model of Python `str.replace(pat, out)` on character lists: scan left
to right, replacing non-overlapping occurrences of `pat`. -/
def replaceList (pat out : List Char) : List Char → List Char
  | [] => []
  | c :: rest =>
    if pat ≠ [] ∧ pat.isPrefixOf (c :: rest) then
      out ++ replaceList pat out (rest.drop (pat.length - 1))
    else c :: replaceList pat out rest
termination_by l => l.length
decreasing_by
  · simp only [List.length_drop, List.length_cons]
    omega
  · simp only [List.length_cons]
    omega

/-- Embedding of `_indent_level` (pbip_parser.py): the length of the
leading-whitespace run is Python's `len(line) - len(line.lstrip())`; the
tab count over that run is `line.count("\t", 0, spaces)`. -/
def indentLevel (line : String) : Nat :=
  let ws := leadingWs line.data
  let tabs := (ws.filter (fun c => c = '\t')).length
  if 0 < tabs then tabs else ws.length / 4

/-- Helper for claim C2: leading run of space characters. -/
def leadingSpaces (line : String) : List Char := line.data.takeWhile (fun c => c = ' ')

lemma takeWhile_ws_eq_spaces (l : List Char)
    (hr : '\r' ∉ l) (hn : '\n' ∉ l)
    (ht : ∀ c ∈ l.takeWhile pyIsSpace, c ≠ '\t') :
    l.takeWhile pyIsSpace = l.takeWhile (fun c => c = ' ') := by
  induction l with
  | nil => rfl
  | cons c rest ih =>
    have hr1 : '\r' ∉ rest := fun hm => hr (List.mem_cons_of_mem _ hm)
    have hn1 : '\n' ∉ rest := fun hm => hn (List.mem_cons_of_mem _ hm)
    have hrc : c ≠ '\r' := fun hc => hr (by rw [hc]; exact List.mem_cons_self _ _)
    have hnc : c ≠ '\n' := fun hc => hn (by rw [hc]; exact List.mem_cons_self _ _)
    by_cases h : pyIsSpace c = true
    · have hmem : c ∈ (c :: rest).takeWhile pyIsSpace := by
        simp only [List.takeWhile_cons, h, if_true]
        exact List.mem_cons_self _ _
      have hne : c ≠ '\t' := ht c hmem
      have hc : c = ' ' := by
        simp only [pyIsSpace, Bool.or_eq_true, decide_eq_true_eq] at h
        tauto
      have htr : ∀ x ∈ rest.takeWhile pyIsSpace, x ≠ '\t' := by
        intro x hx
        refine ht x ?_
        simp only [List.takeWhile_cons, h, if_true]
        exact List.mem_cons_of_mem _ hx
      have hrec := ih hr1 hn1 htr
      simp only [List.takeWhile_cons, h, if_true, hc, decide_True, hrec]
      simp [pyIsSpace]
    · have hcs : ¬ ((fun c => decide (c = ' ')) c = true) := by
        intro hx
        simp only [decide_eq_true_eq] at hx
        exact h (by simp [pyIsSpace, hx])
      simp only [List.takeWhile_cons, h, if_false, Bool.not_eq_true] at *
      simp [hcs]

/-- Claim C2: for every line of structured-text input (a line contains no
`\r` or `\n`), the computed indentation level equals the count of tab
characters in the leading whitespace when at least one tab is present
there, and otherwise equals the count of leading space characters
integer-divided by 4. -/
theorem indent_level_hybrid_rule (line : String)
    (h : '\r' ∉ line.data ∧ '\n' ∉ line.data) :
    indentLevel line =
      (if 0 < ((leadingWs line.data).filter (fun c => c = '\t')).length
       then ((leadingWs line.data).filter (fun c => c = '\t')).length
       else (leadingSpaces line).length / 4) := by
  unfold indentLevel
  by_cases ht : 0 < ((leadingWs line.data).filter (fun c => c = '\t')).length
  · simp [ht]
  · simp only [ht, if_false]
    have hnotab : ∀ c ∈ line.data.takeWhile pyIsSpace, c ≠ '\t' := by
      intro c hc hceq
      subst hceq
      apply ht
      have hmemf : '\t' ∈ (leadingWs line.data).filter (fun c => c = '\t') :=
        List.mem_filter.mpr ⟨hc, by simp⟩
      exact List.length_pos.mpr (List.ne_nil_of_mem hmemf)
    have := takeWhile_ws_eq_spaces line.data h.1 h.2 hnotab
    simp [leadingWs, leadingSpaces, this]

/-- Witness for `indent_level_hybrid_rule` at a concrete mixed-indentation line. -/
theorem indent_level_hybrid_rule_witness :
    ('\r' ∉ (" \t\tdataType: string").data ∧ '\n' ∉ (" \t\tdataType: string").data) ∧
    indentLevel " \t\tdataType: string" =
      (if 0 < ((leadingWs (" \t\tdataType: string").data).filter (fun c => c = '\t')).length
       then ((leadingWs (" \t\tdataType: string").data).filter (fun c => c = '\t')).length
       else (leadingSpaces " \t\tdataType: string").length / 4) :=
  ⟨by decide, indent_level_hybrid_rule " \t\tdataType: string" (by decide)⟩

/-! Canonical data model, embedded from `src/models.py`. -/

/-- Embedding of `models.Column`. -/
structure Column where
  name : String
  data_type : String
  table : String
  is_hidden : Bool
  description : String
deriving DecidableEq, Repr

/-- Embedding of `models.Measure`. -/
structure Measure where
  name : String
  expression : String
  table : String
  description : String
  format_string : String
  is_hidden : Bool
  display_folder : String
deriving DecidableEq, Repr

/-- Embedding of `models.Relationship`. -/
structure Relationship where
  from_table : String
  from_column : String
  to_table : String
  to_column : String
  is_active : Bool
  cross_filter_direction : String
deriving DecidableEq, Repr

/-- Embedding of `models.Table` (`row_count: int | None` becomes `Option Nat`). -/
structure Table where
  name : String
  columns : List Column
  row_count : Option Nat
  is_hidden : Bool
  description : String
deriving DecidableEq, Repr

/-- Embedding of `models.ModelMetadata`; `power_query: dict[str, str]` is an
insertion-ordered association list, as built by `dictInsert` below. -/
structure ModelMetadata where
  name : String
  file_path : String
  tables : List Table
  measures : List Measure
  relationships : List Relationship
  power_query : List (String × String)
  size_bytes : Option Nat
deriving DecidableEq, Repr

/-- Model of assignment `d[k] = v` on a Python dict: overwrite the entry in
place if the key exists (keeping its position; keys are unique in a dict),
else append. -/
def dictInsert : List (String × String) → String → String → List (String × String)
  | [], k, v => [(k, v)]
  | p :: rest, k, v => if p.1 = k then (k, v) :: rest else p :: dictInsert rest k v

/-- Model of `d.get(k)` / `d[k]` lookup on a Python dict. -/
def dictLookup (d : List (String × String)) (k : String) : Option String :=
  (d.find? (fun p => p.1 = k)).map (fun p => p.2)

/-- Embedding of `PBIPParser._unquote`: strip surrounding single quotes
(un-escaping doubled single quotes) or surrounding double quotes. -/
def unquote (name : String) : String :=
  match name.data with
  | [] => name
  | c :: _ =>
    if c = '\'' ∧ name.data.getLast? = some '\'' then
      ⟨replaceList ['\'', '\''] ['\''] ((name.data.drop 1).dropLast)⟩
    else if c = '"' ∧ name.data.getLast? = some '"' then
      ⟨(name.data.drop 1).dropLast⟩
    else name

/-- Split a character list at the first occurrence of `sep`, modelling
Python `s.split(sep, 1)` (the `none` case is a single-element result). -/
def splitFirstAux (sep : Char) : List Char → Option (List Char × List Char)
  | [] => none
  | c :: rest =>
    if c = sep then some ([], rest)
    else (splitFirstAux sep rest).map (fun p => (c :: p.1, p.2))

/-- Embedding of `PBIPParser._parse_column_ref`: split a TMDL column
reference like `Sales.'Product Key'` at the first dot into
(table, column), unquoting both halves; with no dot, the table is empty
and the column is the unmodified input. -/
def parseColumnRef (ref : String) : String × String :=
  match splitFirstAux '.' ref.data with
  | some (a, b) => (unquote (pyStrip ⟨a⟩), unquote (pyStrip ⟨b⟩))
  | none => ("", ref)

lemma splitFirstAux_of_mem (sep : Char) (l : List Char) (h : sep ∈ l) :
    splitFirstAux sep l = some (l.takeWhile (fun c => c ≠ sep), (l.dropWhile (fun c => c ≠ sep)).drop 1) := by
  induction l with
  | nil => cases h
  | cons c rest ih =>
    by_cases hc : c = sep
    · subst hc
      simp [splitFirstAux, List.takeWhile_cons, List.dropWhile_cons]
    · have hmem : sep ∈ rest := by
        rcases List.mem_cons.mp h with h1 | h1
        · exact absurd h1.symm hc
        · exact h1
      simp [splitFirstAux, hc, ih hmem, List.takeWhile_cons, List.dropWhile_cons]

lemma splitFirstAux_of_not_mem (sep : Char) (l : List Char) (h : sep ∉ l) :
    splitFirstAux sep l = none := by
  induction l with
  | nil => rfl
  | cons c rest ih =>
    have hc : ¬ (c = sep) := fun hh => h (hh ▸ List.mem_cons_self _ _)
    have hr : sep ∉ rest := fun hm => h (List.mem_cons_of_mem _ hm)
    simp [splitFirstAux, hc, ih hr]

/-- Claim C10: a relationship column reference containing a dot is split at
the first dot, with both halves stripped and unquoted; a reference with no
dot yields an empty table and the original unmodified string; the parse is
total. -/
theorem parse_column_ref_spec (ref : String) :
    ('.' ∈ ref.data →
      parseColumnRef ref =
        (unquote (pyStrip ⟨ref.data.takeWhile (fun c => c ≠ '.')⟩),
         unquote (pyStrip ⟨(ref.data.dropWhile (fun c => c ≠ '.')).drop 1⟩)))
    ∧ ('.' ∉ ref.data → parseColumnRef ref = ("", ref))
    ∧ (∃ t c, parseColumnRef ref = (t, c)) := by
  refine ⟨fun h => ?_, fun h => ?_, ⟨_, _, rfl⟩⟩
  · simp [parseColumnRef, splitFirstAux_of_mem '.' ref.data h]
  · simp [parseColumnRef, splitFirstAux_of_not_mem '.' ref.data h]

/-- Witness for `parse_column_ref_spec`: a dotted double-quoted reference
and an undotted reference, evaluated concretely. -/
theorem parse_column_ref_spec_witness :
    parseColumnRef "Sales.\"Product Key\"" =
      (unquote (pyStrip ⟨("Sales.\"Product Key\"").data.takeWhile (fun c => c ≠ '.')⟩),
       unquote (pyStrip ⟨(("Sales.\"Product Key\"").data.dropWhile (fun c => c ≠ '.')).drop 1⟩))
    ∧ parseColumnRef "Amount" = ("", "Amount") :=
  ⟨(parse_column_ref_spec "Sales.\"Product Key\"").1 (by decide),
   (parse_column_ref_spec "Amount").2.1 (by decide)⟩

/-! Property-block scanning shared by the TMDL sub-parsers: skip blank
lines, stop at the first non-blank line whose indentation level is at or
below the declaration's, and feed each stripped line to an updater. -/

/-- Generic embedding of the property-scanning loops in
`_parse_tmdl_column`, `_parse_single_relationship` and the property part
of `_parse_tmdl_measure`; returns the final accumulator and the unread
remainder of the line list. -/
def scanProps {α : Type} (indent0 : Nat) (upd : α → String → α) : List String → α → α × List String
  | [], acc => (acc, [])
  | l :: rest, acc =>
    if pyStrip l = "" then scanProps indent0 upd rest acc
    else if indentLevel l ≤ indent0 then (acc, l :: rest)
    else scanProps indent0 upd rest (upd acc (pyStrip l))

/-- Specification-side view of a property block: the stripped non-blank
lines a `scanProps` run actually visits. -/
def blockOf (indent0 : Nat) : List String → List String
  | [] => []
  | l :: rest =>
    if pyStrip l = "" then blockOf indent0 rest
    else if indentLevel l ≤ indent0 then []
    else pyStrip l :: blockOf indent0 rest

lemma scanProps_fst {α : Type} (indent0 : Nat) (upd : α → String → α)
    (ls : List String) (acc : α) :
    (scanProps indent0 upd ls acc).1 = (blockOf indent0 ls).foldl upd acc := by
  induction ls generalizing acc with
  | nil => rfl
  | cons l rest ih =>
    by_cases h1 : pyStrip l = ""
    · simp [scanProps, blockOf, h1, ih]
    · by_cases h2 : indentLevel l ≤ indent0
      · simp [scanProps, blockOf, h1, h2]
      · simp [scanProps, blockOf, h1, h2, ih]

lemma scanProps_len {α : Type} (i : Nat) (u : α → String → α) (ls : List String) (acc : α) :
    (scanProps i u ls acc).2.length ≤ ls.length := by
  induction ls generalizing acc with
  | nil => simp [scanProps]
  | cons l rest ih =>
    by_cases h1 : pyStrip l = ""
    · simp only [scanProps, h1, if_true, List.length_cons]
      exact le_trans (ih _) (Nat.le_succ _)
    · by_cases h2 : indentLevel l ≤ i
      · simp [scanProps, h1, h2]
      · simp only [scanProps, h1, h2, if_false, List.length_cons]
        exact le_trans (ih _) (Nat.le_succ _)

/-- Value of a `key: value` property line, modelling
`prop.split(":", 1)[1].strip()` for a line starting with `key` (whose only
colon is its final character). -/
def propValue (key prop : String) : String := pyStrip ⟨prop.data.drop key.data.length⟩

/-- Value carried by the last property line of a block that starts with
`key` (Python's repeated assignment keeps the last occurrence). -/
def lastPropValue (key : String) (props : List String) : Option String :=
  ((props.filter (fun p => strStartsWith key p)).getLast?).map (propValue key)

lemma not_prefix_both {k₁ k₂ p : String}
    (h₁ : strStartsWith k₁ p = true) (h₂ : strStartsWith k₂ p = true)
    (hk : ¬ (k₁.data <+: k₂.data) ∧ ¬ (k₂.data <+: k₁.data)) : False := by
  have p1 : k₁.data <+: p.data := List.isPrefixOf_iff_prefix.mp h₁
  have p2 : k₂.data <+: p.data := List.isPrefixOf_iff_prefix.mp h₂
  rcases List.prefix_or_prefix_of_prefix p1 p2 with h | h
  · exact hk.1 h
  · exact hk.2 h

/-- Accumulator of `_parse_single_relationship`'s scanning loop. -/
structure RelAcc where
  fromCol : String
  toCol : String
  activeFlag : Bool
  crossFilter : String
deriving DecidableEq, Repr

/-- Embedding of the property dispatch inside `_parse_single_relationship`. -/
def relUpdate (acc : RelAcc) (prop : String) : RelAcc :=
  if strStartsWith "fromColumn:" prop then { acc with fromCol := propValue "fromColumn:" prop }
  else if strStartsWith "toColumn:" prop then { acc with toCol := propValue "toColumn:" prop }
  else if strStartsWith "isActive:" prop then
    { acc with activeFlag := pyLower (propValue "isActive:" prop) != "false" }
  else if strStartsWith "crossFilteringBehavior:" prop then
    { acc with crossFilter := propValue "crossFilteringBehavior:" prop }
  else acc

/-- Embedding of `_parse_single_relationship` (pbip_parser.py): `decl` is
the `relationship ...` line, `rest` the following lines; returns the
Relationship and the unread remainder. -/
def parseSingleRelationshipAux (decl : String) (rest : List String) :
    Relationship × List String :=
  let r := scanProps (indentLevel decl) relUpdate rest ⟨"", "", true, "Single"⟩
  let ft := parseColumnRef r.1.fromCol
  let tt := parseColumnRef r.1.toCol
  (⟨ft.1, ft.2, tt.1, tt.2, r.1.activeFlag, r.1.crossFilter⟩, r.2)

/-- The relationship produced from one `relationship` block. -/
def parseSingleRelationship (decl : String) (rest : List String) : Relationship :=
  (parseSingleRelationshipAux decl rest).1

lemma relUpdate_activeFlag_of_not (acc : RelAcc) (p : String)
    (h : ¬ strStartsWith "isActive:" p = true) :
    (relUpdate acc p).activeFlag = acc.activeFlag := by
  unfold relUpdate
  split_ifs <;> simp_all

lemma relUpdate_activeFlag_of_match (acc : RelAcc) (p : String)
    (h : strStartsWith "isActive:" p = true) :
    (relUpdate acc p).activeFlag = (pyLower (propValue "isActive:" p) != "false") := by
  unfold relUpdate
  split_ifs with h1 h2
  · exact (not_prefix_both h1 h ⟨by decide, by decide⟩).elim
  · exact (not_prefix_both h2 h ⟨by decide, by decide⟩).elim
  · rfl

lemma relUpdate_crossFilter_of_not (acc : RelAcc) (p : String)
    (h : ¬ strStartsWith "crossFilteringBehavior:" p = true) :
    (relUpdate acc p).crossFilter = acc.crossFilter := by
  unfold relUpdate
  split_ifs <;> simp_all

lemma relUpdate_crossFilter_of_match (acc : RelAcc) (p : String)
    (h : strStartsWith "crossFilteringBehavior:" p = true) :
    (relUpdate acc p).crossFilter = propValue "crossFilteringBehavior:" p := by
  unfold relUpdate
  split_ifs with h1 h2 h3
  · exact (not_prefix_both h1 h ⟨by decide, by decide⟩).elim
  · exact (not_prefix_both h2 h ⟨by decide, by decide⟩).elim
  · exact (not_prefix_both h3 h ⟨by decide, by decide⟩).elim
  · rfl

lemma foldl_lastPropValue {γ β : Type} (upd : γ → String → γ)
    (getF : γ → β) (setV : String → β) (key : String)
    (hnot : ∀ acc p, ¬ strStartsWith key p = true → getF (upd acc p) = getF acc)
    (hyes : ∀ acc p, strStartsWith key p = true → getF (upd acc p) = setV (propValue key p))
    (props : List String) (acc : γ) :
    getF (props.foldl upd acc) =
      (match lastPropValue key props with
       | none => getF acc
       | some v => setV v) := by
  induction props generalizing acc with
  | nil => rfl
  | cons p rest ih =>
    rw [List.foldl_cons, ih]
    by_cases hm : strStartsWith key p = true
    · cases hre : (rest.filter (fun q => strStartsWith key q)).getLast? with
      | none =>
        have hnil : rest.filter (fun q => strStartsWith key q) = [] :=
          List.getLast?_eq_none_iff.mp hre
        simp [lastPropValue, List.filter_cons, hm, hnil, hre, hyes acc p hm]
      | some q =>
        have hne : rest.filter (fun q => strStartsWith key q) ≠ [] := by
          intro hnil
          rw [hnil] at hre
          cases hre
        simp only [lastPropValue, List.filter_cons, hm, if_true]
        rcases List.exists_cons_of_ne_nil hne with ⟨a, as, ha⟩
        rw [ha, List.getLast?_cons_cons]
        rw [ha] at hre
        simp [hre]
    · have hm' : strStartsWith key p = false := by simpa using hm
      simp [lastPropValue, List.filter_cons, hm', hnot acc p hm]

lemma scan_rel_activeFlag (indent0 : Nat) (rest : List String) (init : RelAcc) :
    (scanProps indent0 relUpdate rest init).1.activeFlag =
      (match lastPropValue "isActive:" (blockOf indent0 rest) with
       | none => init.activeFlag
       | some v => (pyLower v != "false")) := by
  rw [scanProps_fst]
  exact foldl_lastPropValue relUpdate RelAcc.activeFlag (fun v => (pyLower v != "false"))
    "isActive:" relUpdate_activeFlag_of_not relUpdate_activeFlag_of_match _ init

lemma scan_rel_crossFilter (indent0 : Nat) (rest : List String) (init : RelAcc) :
    (scanProps indent0 relUpdate rest init).1.crossFilter =
      (match lastPropValue "crossFilteringBehavior:" (blockOf indent0 rest) with
       | none => init.crossFilter
       | some v => v) := by
  rw [scanProps_fst]
  exact foldl_lastPropValue relUpdate RelAcc.crossFilter (fun v => v) "crossFilteringBehavior:"
    relUpdate_crossFilter_of_not relUpdate_crossFilter_of_match _ init

/-- Claim C8: parsing a relationship block yields `is_active = true` unless
the (last) `isActive:` property value equals `"false"` case-insensitively
(any other value, or an absent property, yields `true`); the cross-filter
direction is the (last) `crossFilteringBehavior:` value when present, else
`"Single"`. -/
theorem relationship_defaults_spec (decl : String) (rest : List String) :
    (parseSingleRelationship decl rest).is_active =
      (match lastPropValue "isActive:" (blockOf (indentLevel decl) rest) with
       | none => true
       | some v => (pyLower v != "false"))
    ∧ (parseSingleRelationship decl rest).cross_filter_direction =
      (lastPropValue "crossFilteringBehavior:" (blockOf (indentLevel decl) rest)).getD "Single" := by
  constructor
  · show (scanProps (indentLevel decl) relUpdate rest ⟨"", "", true, "Single"⟩).1.activeFlag = _
    rw [scan_rel_activeFlag]
  · show (scanProps (indentLevel decl) relUpdate rest ⟨"", "", true, "Single"⟩).1.crossFilter = _
    rw [scan_rel_crossFilter]
    cases lastPropValue "crossFilteringBehavior:" (blockOf (indentLevel decl) rest) <;> rfl

/-! Measure-dependency graph (generators/mermaid.py). -/

/-- Embedding of the edge computation in `generate_measure_dependency_graph`:
an edge `(A.name, B.name)` for every measure `A` and declared measure name
`B.name ≠ A.name` such that `"[" + B.name + "]"` occurs as a contiguous
substring of `A`'s DAX expression. Python iterates the set
`{m.name for m in measures}` in unspecified order; it is represented here
in first-occurrence order (`dedup`); all claims proved are membership
statements, which do not depend on that order. -/
def measureEdges (measures : List Measure) : List (String × String) :=
  let names := (measures.map Measure.name).dedup
  measures.flatMap (fun m =>
    (names.filter (fun n =>
      decide (n ≠ m.name ∧ ("[" ++ n ++ "]").data <:+: m.expression.data))).map
      (fun n => (m.name, n)))

/-- Claim C3: in the measure-dependency graph, for distinct declared
measures `A` and `B` (measure names pairwise distinct), there is an edge
from `A` to `B` iff `B`'s name wrapped in square brackets occurs as a
literal substring of `A`'s formula text; and a name that is not a declared
measure name never receives an edge. -/
theorem measure_dependency_edges_spec (ms : List Measure) (A B : Measure)
    (hnd : (ms.map Measure.name).Nodup) (hA : A ∈ ms) (hB : B ∈ ms) (hAB : A ≠ B) :
    ((A.name, B.name) ∈ measureEdges ms ↔
      ("[" ++ B.name ++ "]").data <:+: A.expression.data)
    ∧ (∀ s n, n ∉ ms.map Measure.name → (s, n) ∉ measureEdges ms) := by
  have hinj := List.inj_on_of_nodup_map hnd
  have hname : A.name ≠ B.name := fun h => hAB (hinj hA hB h)
  constructor
  · constructor
    · intro hmem
      simp only [measureEdges, List.mem_flatMap, List.mem_map, List.mem_filter,
        List.mem_dedup, decide_eq_true_eq] at hmem
      obtain ⟨m, hm, n, ⟨hn_names, hn_ne, hn_inf⟩, heq⟩ := hmem
      have h1 : m.name = A.name := (Prod.mk.injEq _ _ _ _ ▸ heq).1
      have h2 : n = B.name := (Prod.mk.injEq _ _ _ _ ▸ heq).2
      have hmA : m = A := hinj hm hA h1
      rw [← hmA, ← h2]
      exact hn_inf
    · intro hinf
      simp only [measureEdges, List.mem_flatMap, List.mem_map, List.mem_filter,
        List.mem_dedup, decide_eq_true_eq]
      exact ⟨A, hA, B.name, ⟨⟨B, hB, rfl⟩, fun h => hname h.symm, hinf⟩, rfl⟩
  · intro s n hn hmem
    simp only [measureEdges, List.mem_flatMap, List.mem_map, List.mem_filter,
      List.mem_dedup, decide_eq_true_eq] at hmem
    obtain ⟨m, _, n', ⟨⟨a, ha, han⟩, _, _⟩, heq⟩ := hmem
    have h2 : n' = n := (Prod.mk.injEq _ _ _ _ ▸ heq).2
    exact hn (List.mem_map.mpr ⟨a, ha, h2 ▸ han⟩)

/-- Witness for `measure_dependency_edges_spec`: two declared measures where
the bracketed reference is present, and the undeclared name
`Total Sales YoY` which receives no edge. -/
theorem measure_dependency_edges_spec_witness :
    ((("Margin" : String), ("Total Sales" : String)) ∈ measureEdges
        [⟨"Total Sales", "SUM(Sales[Amount])", "Sales", "", "", false, ""⟩,
         ⟨"Margin", "[Total Sales] - [Total Cost] + [Total Sales YoY]", "Sales", "", "", false, ""⟩])
    ∧ (∀ s, (s, "Total Sales YoY") ∉ measureEdges
        [⟨"Total Sales", "SUM(Sales[Amount])", "Sales", "", "", false, ""⟩,
         ⟨"Margin", "[Total Sales] - [Total Cost] + [Total Sales YoY]", "Sales", "", "", false, ""⟩]) := by
  have h := measure_dependency_edges_spec
    [⟨"Total Sales", "SUM(Sales[Amount])", "Sales", "", "", false, ""⟩,
     ⟨"Margin", "[Total Sales] - [Total Cost] + [Total Sales YoY]", "Sales", "", "", false, ""⟩]
    ⟨"Margin", "[Total Sales] - [Total Cost] + [Total Sales YoY]", "Sales", "", "", false, ""⟩
    ⟨"Total Sales", "SUM(Sales[Amount])", "Sales", "", "", false, ""⟩
    (by decide) (by decide) (by decide) (by decide)
  exact ⟨h.1.mpr (by decide), fun s => h.2 s "Total Sales YoY" (by decide)⟩

/-! Duplicate-measure report (generators/multi_model.py,
`_generate_duplicate_report`). -/

/-- The part of `ProcessedModel` the duplicate report reads: the model's
name and its parsed measures. -/
structure PModel where
  name : String
  measures : List Measure
deriving DecidableEq, Repr

/-- Flattened `(measure, owning model name)` occurrences, in processing
order, as enumerated by the nested loops over `self.models`. -/
def occurrences (models : List PModel) : List (Measure × String) :=
  models.flatMap (fun md => md.measures.map (fun m => (m, md.name)))

/-- Keys of the `by_name` dict in insertion (first-occurrence) order. -/
def groupKeys (occ : List (Measure × String)) : List String :=
  (occ.map (fun o => o.1.name)).dedup

/-- The occurrence group stored under key `k` in the `by_name` dict. -/
def groupOf (occ : List (Measure × String)) (k : String) : List (Measure × String) :=
  occ.filter (fun o => o.1.name = k)

/-- Model of `len(set(occ.expression.strip() for occ in occurrences)) == 1`. -/
def allEqTrim (g : List (Measure × String)) : Bool :=
  ((g.map (fun o => pyStrip o.1.expression)).dedup).length = 1

/-- Embedding of `_generate_duplicate_report`'s table rows: one row
`(name, models list, classification)` per measure name occurring more than
once, listed sorted by name. -/
def duplicateRows (models : List PModel) : List (String × String × String) :=
  let occ := occurrences models
  let dups := (groupKeys occ).filter (fun k => 1 < (groupOf occ k).length)
  (dups.mergeSort (fun a b => decide (a ≤ b))).map (fun k =>
    (k, pyJoin ", " ((groupOf occ k).map (fun o => o.2)),
     if allEqTrim (groupOf occ k) then "Yes" else "Different"))

lemma dedup_cons_all_eq {α : Type} [DecidableEq α] (a : α) :
    ∀ l : List α, (∀ x ∈ l, x = a) → (a :: l).dedup = [a]
  | [], _ => by simp
  | b :: bs, h => by
    have hba : b = a := h b (by simp)
    subst hba
    have hrec := dedup_cons_all_eq b bs (fun x hx => h x (by simp [hx]))
    rw [List.dedup_cons_of_mem (l := b :: bs) (by simp), hrec]

lemma dedup_length_one_iff {α : Type} [DecidableEq α] (l : List α) :
    l.dedup.length = 1 ↔ l ≠ [] ∧ ∀ a ∈ l, ∀ b ∈ l, a = b := by
  constructor
  · intro h
    obtain ⟨a, ha⟩ := List.length_eq_one.mp h
    have hmem : ∀ x ∈ l, x = a := by
      intro x hx
      have : x ∈ l.dedup := List.mem_dedup.mpr hx
      rw [ha] at this
      simpa using this
    refine ⟨?_, fun x hx y hy => (hmem x hx).trans (hmem y hy).symm⟩
    intro hnil
    rw [hnil] at ha
    simp [List.dedup_nil] at ha
  · rintro ⟨hne, hall⟩
    obtain ⟨a, as, rfl⟩ := List.exists_cons_of_ne_nil hne
    rw [dedup_cons_all_eq a as (fun x hx => hall x (by simp [hx]) a (by simp))]
    rfl

lemma groupOf_ne_nil_mem_keys {occ : List (Measure × String)} {k : String}
    (h : groupOf occ k ≠ []) : k ∈ groupKeys occ := by
  obtain ⟨o, ho⟩ := List.exists_mem_of_ne_nil _ h
  have hmem : o ∈ occ := List.mem_of_mem_filter ho
  have hk : o.1.name = k := by simpa using List.of_mem_filter ho
  exact List.mem_dedup.mpr (List.mem_map.mpr ⟨o, hmem, hk⟩)

lemma map_fst_over_mk {α β : Type} (g : α → β) (l : List α) :
    (l.map (fun k => ((k, g k) : α × β))).map (fun r => r.1) = l := by
  induction l with
  | nil => rfl
  | cons x xs ih => simp [ih]

/-- Claim C4: the duplicate report contains exactly one row per measure
name with more than one occurrence across all processed models (grouped by
exact name); rows are sorted by name; and a row is classified `"Yes"`
(identical) iff every occurrence's formula text is equal after trimming
leading/trailing whitespace, else `"Different"`. -/
theorem duplicate_report_spec (models : List PModel) :
    (∀ k ml c, (k, ml, c) ∈ duplicateRows models ↔
       (1 < (groupOf (occurrences models) k).length ∧
        ml = pyJoin ", " ((groupOf (occurrences models) k).map (fun o => o.2)) ∧
        c = (if allEqTrim (groupOf (occurrences models) k) then "Yes" else "Different")))
    ∧ List.Sorted (· ≤ ·) ((duplicateRows models).map (fun r => r.1))
    ∧ (∀ k ml c, (k, ml, c) ∈ duplicateRows models →
        (c = "Yes" ↔ ∀ o ∈ groupOf (occurrences models) k,
          ∀ o' ∈ groupOf (occurrences models) k,
            pyStrip o.1.expression = pyStrip o'.1.expression)) := by
  have hmem : ∀ k ml c, (k, ml, c) ∈ duplicateRows models ↔
      (1 < (groupOf (occurrences models) k).length ∧
       ml = pyJoin ", " ((groupOf (occurrences models) k).map (fun o => o.2)) ∧
       c = (if allEqTrim (groupOf (occurrences models) k) then "Yes" else "Different")) := by
    intro k ml c
    constructor
    · intro h
      simp only [duplicateRows, List.mem_map, List.mem_mergeSort, List.mem_filter,
        decide_eq_true_eq] at h
      obtain ⟨k', ⟨_, hgt⟩, heq⟩ := h
      have hk : k' = k := congrArg Prod.fst heq
      subst hk
      have h2 := congrArg Prod.snd heq
      exact ⟨hgt, (congrArg Prod.fst h2).symm, (congrArg Prod.snd h2).symm⟩
    · rintro ⟨hgt, hml, hc⟩
      have hkk : k ∈ groupKeys (occurrences models) := by
        apply groupOf_ne_nil_mem_keys
        intro hnil
        rw [hnil] at hgt
        simp at hgt
      simp only [duplicateRows, List.mem_map, List.mem_mergeSort, List.mem_filter,
        decide_eq_true_eq]
      exact ⟨k, ⟨hkk, hgt⟩, by rw [hml, hc]⟩
  refine ⟨hmem, ?_, ?_⟩
  · have hsorted : List.Pairwise (fun a b : String => decide (a ≤ b) = true)
        (((groupKeys (occurrences models)).filter
          (fun k => 1 < (groupOf (occurrences models) k).length)).mergeSort
            (fun a b => decide (a ≤ b))) :=
      List.sorted_mergeSort (fun a b c hab hbc => by
          simp only [decide_eq_true_eq] at *
          exact le_trans hab hbc)
        (fun a b => by simpa using le_total a b) _
    have hmap : (duplicateRows models).map (fun r => r.1) =
        ((groupKeys (occurrences models)).filter
          (fun k => 1 < (groupOf (occurrences models) k).length)).mergeSort
            (fun a b => decide (a ≤ b)) := by
      simp only [duplicateRows]
      exact map_fst_over_mk _ _
    rw [hmap]
    exact hsorted.imp (by simp)
  · intro k ml c hrow
    have h := (hmem k ml c).mp hrow
    rw [h.2.2]
    by_cases hae : allEqTrim (groupOf (occurrences models) k) = true
    · rw [if_pos hae]
      constructor
      · intro _
        have := (dedup_length_one_iff
          ((groupOf (occurrences models) k).map (fun o => pyStrip o.1.expression))).mp
          (by simpa [allEqTrim] using hae)
        intro o ho o' ho'
        exact this.2 _ (List.mem_map_of_mem _ ho) _ (List.mem_map_of_mem _ ho')
      · intro _
        rfl
    · rw [if_neg hae]
      constructor
      · intro hx
        exact absurd hx (by decide)
      · intro hall
        exfalso
        apply hae
        simp only [allEqTrim, decide_eq_true_eq]
        apply (dedup_length_one_iff _).mpr
        constructor
        · intro hnil
          have hgnil : groupOf (occurrences models) k = [] := by
            by_contra hne
            obtain ⟨o, ho⟩ := List.exists_mem_of_ne_nil _ hne
            have hx : pyStrip o.1.expression ∈
                ((groupOf (occurrences models) k).map (fun o => pyStrip o.1.expression)) :=
              List.mem_map_of_mem _ ho
            rw [hnil] at hx
            cases hx
          rw [hgnil] at h
          simp at h
        · intro a ha b hb
          obtain ⟨o, ho, rfl⟩ := List.mem_map.mp ha
          obtain ⟨o', ho', rfl⟩ := List.mem_map.mp hb
          exact hall o ho o' ho'

/-- Witness for `duplicate_report_spec`: two models sharing a measure
`Net Revenue` whose formulas differ only by trailing whitespace produce a
row classified identical (`"Yes"`). -/
theorem duplicate_report_spec_witness :
    ("Net Revenue", "Finance, Sales",
      ("Yes" : String)) ∈ duplicateRows
        [⟨"Finance", [⟨"Net Revenue", "SUM(Rev[Amt]) ", "Rev", "", "", false, ""⟩]⟩,
         ⟨"Sales", [⟨"Net Revenue", "SUM(Rev[Amt])", "Rev", "", "", false, ""⟩]⟩] := by
  apply ((duplicate_report_spec
    [⟨"Finance", [⟨"Net Revenue", "SUM(Rev[Amt]) ", "Rev", "", "", false, ""⟩]⟩,
     ⟨"Sales", [⟨"Net Revenue", "SUM(Rev[Amt])", "Rev", "", "", false, ""⟩]⟩]).1
    "Net Revenue" "Finance, Sales" "Yes").mpr
  refine ⟨by decide, by decide, by decide⟩

/-! Page-name slugging (generators/pages.py). -/

/-- Embedding of `slugify`: `text.lower()` followed by the four
`str.replace` calls of the source, each replacing one character by `-`.
`Char.toLower` models Python `str.lower` (ASCII; the slug claims concern
the replacement structure and ASCII fixtures). -/
def slugify (text : String) : String :=
  ⟨replaceList ['\\'] ['-']
    (replaceList ['/'] ['-']
      (replaceList ['_'] ['-']
        (replaceList [' '] ['-'] (text.data.map Char.toLower))))⟩

/-- Specification-side slug function, following the claim's words: a single
pass that lowercases each character and turns a space, underscore, forward
slash or backslash into a hyphen, changing nothing else. -/
def slugifySpec (text : String) : String :=
  ⟨text.data.map (fun c =>
    let c' := Char.toLower c
    if c' = ' ' ∨ c' = '_' ∨ c' = '/' ∨ c' = '\\' then '-' else c')⟩

lemma replaceList_single (a b : Char) :
    ∀ l : List Char, replaceList [a] [b] l = l.map (fun c => if c = a then b else c)
  | [] => by simp [replaceList]
  | c :: rest => by
    have hrec := replaceList_single a b rest
    by_cases hc : c = a
    · have hp : [a].isPrefixOf (c :: rest) = true := by
        simp [List.isPrefixOf, hc]
      simp [replaceList, hp, hc, hrec]
    · have hp : ¬ ([a].isPrefixOf (c :: rest) = true) := by
        simp only [List.isPrefixOf, List.isPrefixOf_nil_left, Bool.and_true, beq_iff_eq]
        exact fun h => hc h.symm
      simp [replaceList, hp, hc, hrec]

/-- Claim C5: page-name slug derivation is a pure function of the display
name — lowercase, then each space, underscore, forward slash and backslash
becomes a hyphen, with nothing else changed — and on the fixtures,
`"Sales Detail"` maps to `"sales-detail"` and `"A/B"` to `"a-b"`. -/
theorem slugify_pure_function :
    (∀ s : String, slugify s = slugifySpec s)
    ∧ slugify "Sales Detail" = "sales-detail"
    ∧ slugify "A/B" = "a-b" := by
  have hmain : ∀ s : String, slugify s = slugifySpec s := by
    intro s
    unfold slugify slugifySpec
    apply congrArg String.mk
    rw [replaceList_single, replaceList_single, replaceList_single, replaceList_single]
    simp only [List.map_map]
    apply List.map_congr_left
    intro c _
    simp only [Function.comp_apply]
    by_cases h1 : Char.toLower c = ' '
    · rw [h1]; decide
    · by_cases h2 : Char.toLower c = '_'
      · rw [h2]; decide
      · by_cases h3 : Char.toLower c = '/'
        · rw [h3]; decide
        · by_cases h4 : Char.toLower c = '\\'
          · rw [h4]; decide
          · simp [h1, h2, h3, h4]
  refine ⟨hmain, ?_, ?_⟩
  · rw [hmain]; decide
  · rw [hmain]; decide

/-! Embedding of the BIM (JSON) parser `PBIPParser._parse_bim`. A JSON
object is modelled as a structure whose fields carry the values the
parser's defaulted accessors (`obj.get(key, default)`) would produce, so
an absent JSON key is represented by the accessor's default value. -/

/-- A JSON string field that may arrive either as one string or as a list
of strings (the multi-line form). -/
inductive ExprVal
  | str (v : String)
  | arr (l : List String)
deriving DecidableEq, Repr

/-- Embedding of the `if isinstance(expr, list): expr = "\n".join(expr)`
normalization applied to every expression value read by `_parse_bim`. -/
def joinNl : ExprVal → String
  | .str v => v
  | .arr l => pyJoin "\n" l

/-- A column object as read by `_parse_bim`. -/
structure JColumn where
  name : String
  dataType : String
  isHidden : Bool
  description : String
deriving DecidableEq, Repr

/-- A measure object as read by `_parse_bim`. -/
structure JMeasure where
  name : String
  expression : ExprVal
  description : String
  formatString : String
  isHidden : Bool
  displayFolder : String
deriving DecidableEq, Repr

/-- A partition's `source` object (`part.get("source", {})`). -/
structure JSource where
  type : String
  expression : ExprVal
deriving DecidableEq, Repr

/-- A partition object. -/
structure JPartition where
  source : JSource
deriving DecidableEq, Repr

/-- A table object as read by `_parse_bim`. -/
structure JTable where
  name : String
  isHidden : Bool
  description : String
  columns : List JColumn
  measures : List JMeasure
  partitions : List JPartition
deriving DecidableEq, Repr

/-- A relationship object as read by `_parse_bim`. -/
structure JRel where
  fromTable : String
  fromColumn : String
  toTable : String
  toColumn : String
  isActive : Bool
  crossFilteringBehavior : String
deriving DecidableEq, Repr

/-- A top-level named expression object. -/
structure JExpr where
  name : String
  expression : ExprVal
deriving DecidableEq, Repr

/-- The (unwrapped) model object of a BIM document; `name` carries
`data.get("name", bim_path.parent.name)`. -/
structure JModel where
  name : String
  tables : List JTable
  relationships : List JRel
  expressions : List JExpr
deriving DecidableEq, Repr

/-- Measures collected by `_parse_bim`'s table loop, with list-valued
expressions newline-joined. -/
def bimMeasures (model : JModel) : List Measure :=
  model.tables.flatMap (fun t => t.measures.map (fun m =>
    ⟨m.name, joinNl m.expression, t.name, m.description, m.formatString,
     m.isHidden, m.displayFolder⟩))

/-- Tables collected by `_parse_bim`. -/
def bimTables (model : JModel) : List Table :=
  model.tables.map (fun t =>
    ⟨t.name, t.columns.map (fun c => ⟨c.name, c.dataType, t.name, c.isHidden, c.description⟩),
     none, t.isHidden, t.description⟩)

/-- Relationships collected by `_parse_bim`. -/
def bimRels (model : JModel) : List Relationship :=
  model.relationships.map (fun r =>
    ⟨r.fromTable, r.fromColumn, r.toTable, r.toColumn, r.isActive, r.crossFilteringBehavior⟩)

/-- Phase one of `_parse_bim`'s power-query collection: the loop over
top-level `expressions`, keeping entries with non-empty name and
non-empty (joined) expression. -/
def bimExprsPQ (exprs : List JExpr) : List (String × String) :=
  exprs.foldl (fun d e =>
    if e.name ≠ "" ∧ joinNl e.expression ≠ "" then
      dictInsert d e.name (joinNl e.expression)
    else d) []

/-- One table's contribution in phase two: the loop over its partitions,
writing the joined expression of every partition whose source type is the
M (query-language) marker under the table's name. -/
def partFold (tname : String) (parts : List JPartition) (d : List (String × String)) :
    List (String × String) :=
  parts.foldl (fun d p =>
    if p.source.type = "m" ∧ joinNl p.source.expression ≠ "" then
      dictInsert d tname (joinNl p.source.expression)
    else d) d

/-- Phase two of `_parse_bim`'s power-query collection: the loop over all
tables, run after the top-level expressions. -/
def pqFromTables (tables : List JTable) (d : List (String × String)) :
    List (String × String) :=
  tables.foldl (fun d t => partFold t.name t.partitions d) d

/-- The full `power_query` dict built by `_parse_bim`: top-level
expressions first, then table partitions (later writes win). -/
def bimPQ (model : JModel) : List (String × String) :=
  pqFromTables model.tables (bimExprsPQ model.expressions)

/-- Embedding of `_parse_bim`'s result (the file path is not modelled). -/
def parseBim (model : JModel) : ModelMetadata :=
  ⟨model.name, "", bimTables model, bimMeasures model, bimRels model, bimPQ model, none⟩

/-- Joined expressions of a partition list's M partitions that survive the
non-empty check, in order. -/
def mPartExprsList (parts : List JPartition) : List String :=
  (parts.filter (fun p =>
    decide (p.source.type = "m" ∧ joinNl p.source.expression ≠ ""))).map
    (fun p => joinNl p.source.expression)

/-- Joined expressions of a table's qualifying M partitions, in order. -/
def mPartExprs (t : JTable) : List String := mPartExprsList t.partitions

lemma dictLookup_insert_self : ∀ (d : List (String × String)) (k v : String),
    dictLookup (dictInsert d k v) k = some v
  | [], k, v => by simp [dictInsert, dictLookup, List.find?]
  | p :: rest, k, v => by
    by_cases hp : p.1 = k
    · simp [dictInsert, hp, dictLookup, List.find?]
    · simp only [dictInsert, hp, if_false]
      have := dictLookup_insert_self rest k v
      simpa [dictLookup, List.find?_cons, hp] using this

lemma dictLookup_insert_ne : ∀ (d : List (String × String)) (k v k' : String), k' ≠ k →
    dictLookup (dictInsert d k v) k' = dictLookup d k'
  | [], k, v, k', h => by simp [dictInsert, dictLookup, List.find?, Ne.symm h]
  | p :: rest, k, v, k', h => by
    by_cases hp : p.1 = k
    · have hp' : ¬ (p.1 = k') := by rw [hp]; exact Ne.symm h
      simp [dictInsert, hp, dictLookup, List.find?_cons, Ne.symm h, hp']
    · simp only [dictInsert, hp, if_false]
      by_cases hk' : p.1 = k'
      · simp [dictLookup, List.find?_cons, hk']
      · have := dictLookup_insert_ne rest k v k' h
        simpa [dictLookup, List.find?_cons, hk'] using this

lemma partFold_lookup_ne (tname : String) (parts : List JPartition)
    (d : List (String × String)) (k : String) (h : k ≠ tname) :
    dictLookup (partFold tname parts d) k = dictLookup d k := by
  induction parts generalizing d with
  | nil => rfl
  | cons p rest ih =>
    by_cases hc : p.source.type = "m" ∧ joinNl p.source.expression ≠ ""
    · simp only [partFold, List.foldl_cons, if_pos hc]
      rw [show (rest.foldl _ (dictInsert d tname (joinNl p.source.expression))) =
        partFold tname rest (dictInsert d tname (joinNl p.source.expression)) from rfl]
      rw [ih, dictLookup_insert_ne _ _ _ _ h]
    · simp only [partFold, List.foldl_cons, if_neg hc]
      exact ih d

lemma partFold_empty (tname : String) (parts : List JPartition)
    (d : List (String × String)) (h : mPartExprsList parts = []) :
    partFold tname parts d = d := by
  induction parts generalizing d with
  | nil => rfl
  | cons p rest ih =>
    by_cases hc : p.source.type = "m" ∧ joinNl p.source.expression ≠ ""
    · exfalso
      simp [mPartExprsList, List.filter_cons, hc] at h
    · simp only [mPartExprsList, List.filter_cons] at h
      rw [if_neg (by simpa using hc)] at h
      simp only [partFold, List.foldl_cons, if_neg hc]
      exact ih _ h

lemma partFold_lookup_last (tname : String) (parts : List JPartition)
    (d : List (String × String)) (h : mPartExprsList parts ≠ []) :
    dictLookup (partFold tname parts d) tname = (mPartExprsList parts).getLast? := by
  induction parts generalizing d with
  | nil => exact absurd rfl h
  | cons p rest ih =>
    by_cases hc : p.source.type = "m" ∧ joinNl p.source.expression ≠ ""
    · have hexp : mPartExprsList (p :: rest) =
          joinNl p.source.expression :: mPartExprsList rest := by
        simp [mPartExprsList, List.filter_cons, hc]
      by_cases hrest : mPartExprsList rest = []
      · simp only [partFold, List.foldl_cons, if_pos hc]
        rw [show (rest.foldl _ (dictInsert d tname (joinNl p.source.expression))) =
          partFold tname rest (dictInsert d tname (joinNl p.source.expression)) from rfl]
        rw [partFold_empty tname rest _ hrest, dictLookup_insert_self, hexp, hrest]
        rfl
      · simp only [partFold, List.foldl_cons, if_pos hc]
        rw [show (rest.foldl _ (dictInsert d tname (joinNl p.source.expression))) =
          partFold tname rest (dictInsert d tname (joinNl p.source.expression)) from rfl]
        rw [ih _ hrest, hexp]
        obtain ⟨x, xs, hxs⟩ := List.exists_cons_of_ne_nil hrest
        rw [hxs, List.getLast?_cons_cons]
    · have hexp : mPartExprsList (p :: rest) = mPartExprsList rest := by
        simp only [mPartExprsList, List.filter_cons]
        rw [if_neg (by simpa using hc)]
      rw [hexp] at h ⊢
      simp only [partFold, List.foldl_cons, if_neg hc]
      exact ih _ h

lemma pqFromTables_lookup_not_mem (tables : List JTable) (d : List (String × String))
    (k : String) (h : k ∉ tables.map JTable.name) :
    dictLookup (pqFromTables tables d) k = dictLookup d k := by
  induction tables generalizing d with
  | nil => rfl
  | cons t rest ih =>
    have h1 : k ≠ t.name := fun hk => h (by simp [hk])
    have h2 : k ∉ rest.map JTable.name := fun hk => h (by simp [hk])
    simp only [pqFromTables, List.foldl_cons]
    rw [show (rest.foldl _ (partFold t.name t.partitions d)) =
      pqFromTables rest (partFold t.name t.partitions d) from rfl]
    rw [ih _ h2, partFold_lookup_ne _ _ _ _ h1]

lemma pqFromTables_lookup_last (tables : List JTable) (d : List (String × String))
    (t : JTable) (ht : t ∈ tables) (hnd : (tables.map JTable.name).Nodup)
    (hm : mPartExprs t ≠ []) :
    dictLookup (pqFromTables tables d) t.name = (mPartExprs t).getLast? := by
  induction tables generalizing d with
  | nil => cases ht
  | cons u rest ih =>
    simp only [List.map_cons, List.nodup_cons] at hnd
    rcases List.mem_cons.mp ht with rfl | htr
    · have hnot : t.name ∉ rest.map JTable.name := hnd.1
      simp only [pqFromTables, List.foldl_cons]
      rw [show (rest.foldl _ (partFold t.name t.partitions d)) =
        pqFromTables rest (partFold t.name t.partitions d) from rfl]
      rw [pqFromTables_lookup_not_mem _ _ _ hnot]
      exact partFold_lookup_last _ _ _ hm
    · simp only [pqFromTables, List.foldl_cons]
      rw [show (rest.foldl _ (partFold u.name u.partitions d)) =
        pqFromTables rest (partFold u.name u.partitions d) from rfl]
      exact ih _ htr hnd.2

/-- Claim C7: when a table has an M (query-language) partition and a
top-level named expression with the same name as the table also exists,
the data-source mapping holds the (last qualifying) partition expression
under that key — the partition loop runs after the expression loop and its
write wins. -/
theorem partition_overwrites_expression (model : JModel) (t : JTable)
    (ht : t ∈ model.tables) (hnd : (model.tables.map JTable.name).Nodup)
    (e : JExpr) (_he : e ∈ model.expressions) (_hen : e.name = t.name)
    (hm : mPartExprs t ≠ []) :
    dictLookup (bimPQ model) t.name = (mPartExprs t).getLast? :=
  pqFromTables_lookup_last model.tables (bimExprsPQ model.expressions) t ht hnd hm

/-- Witness for `partition_overwrites_expression`: a table `T` with two M
partitions and a same-named top-level expression; the final mapping holds
the last partition's expression, not the top-level one. -/
theorem partition_overwrites_expression_witness :
    dictLookup (bimPQ
      ⟨"m", [⟨"T", false, "", [], [],
        [⟨⟨"m", .str "E1"⟩⟩, ⟨⟨"m", .str "E2"⟩⟩]⟩], [],
        [⟨"T", .str "E0"⟩]⟩) "T" = some "E2" := by
  have h := partition_overwrites_expression
    ⟨"m", [⟨"T", false, "", [], [],
      [⟨⟨"m", .str "E1"⟩⟩, ⟨⟨"m", .str "E2"⟩⟩]⟩], [],
      [⟨"T", .str "E0"⟩]⟩
    ⟨"T", false, "", [], [], [⟨⟨"m", .str "E1"⟩⟩, ⟨⟨"m", .str "E2"⟩⟩]⟩
    (by decide) (by decide) ⟨"T", .str "E0"⟩ (by decide) (by decide) (by decide)
  rw [h]
  decide

lemma append_nl_ne_empty (a b : String) : a ++ "\n" ++ b ≠ "" := by
  intro h
  have hlen := congrArg String.length h
  simp only [String.length_append] at hlen
  rw [show ("\n" : String).length = 1 from rfl, show ("" : String).length = 0 from rfl] at hlen
  omega

/-- Claim C6: when `_parse_bim` meets an expression value that is a list of
strings — as a measure expression, a top-level named expression, or a
partition source expression — it joins the elements with newline
characters before storing them (never concatenating without a separator):
for the two-element list `[a, b]` the stored value is `a ++ "\n" ++ b` in
all three positions. -/
theorem bim_list_expressions_newline_joined (a b tn mn en : String)
    (hen : en ≠ "") (hne : en ≠ tn) :
    joinNl (.arr [a, b]) = a ++ "\n" ++ b
    ∧ bimMeasures
        ⟨"m", [⟨tn, false, "", [],
          [⟨mn, .arr [a, b], "", "", false, ""⟩],
          [⟨⟨"m", .arr [a, b]⟩⟩]⟩], [], [⟨en, .arr [a, b]⟩]⟩ =
      [⟨mn, a ++ "\n" ++ b, tn, "", "", false, ""⟩]
    ∧ dictLookup (bimPQ
        ⟨"m", [⟨tn, false, "", [],
          [⟨mn, .arr [a, b], "", "", false, ""⟩],
          [⟨⟨"m", .arr [a, b]⟩⟩]⟩], [], [⟨en, .arr [a, b]⟩]⟩) en =
      some (a ++ "\n" ++ b)
    ∧ dictLookup (bimPQ
        ⟨"m", [⟨tn, false, "", [],
          [⟨mn, .arr [a, b], "", "", false, ""⟩],
          [⟨⟨"m", .arr [a, b]⟩⟩]⟩], [], [⟨en, .arr [a, b]⟩]⟩) tn =
      some (a ++ "\n" ++ b) := by
  have hj : joinNl (.arr [a, b]) = a ++ "\n" ++ b := rfl
  have hnn : joinNl (ExprVal.arr [a, b]) ≠ "" := by
    rw [hj]
    exact append_nl_ne_empty a b
  have hpq1 : bimExprsPQ [⟨en, .arr [a, b]⟩] = [(en, joinNl (.arr [a, b]))] := by
    simp [bimExprsPQ, hen, hnn, dictInsert]
  refine ⟨hj, by simp [bimMeasures, hj], ?_, ?_⟩
  · show dictLookup (pqFromTables _ (bimExprsPQ _)) en = _
    rw [hpq1]
    simp only [pqFromTables, List.foldl_cons, List.foldl_nil]
    show dictLookup (partFold tn _ _) en = _
    rw [partFold_lookup_ne _ _ _ _ hne]
    simp [dictLookup, List.find?, hj]
  · show dictLookup (pqFromTables _ (bimExprsPQ _)) tn = _
    rw [hpq1]
    simp only [pqFromTables, List.foldl_cons, List.foldl_nil]
    show dictLookup (partFold tn _ _) tn = _
    have hl : mPartExprsList [⟨⟨"m", ExprVal.arr [a, b]⟩⟩] = [joinNl (ExprVal.arr [a, b])] := by
      simp [mPartExprsList, hnn]
    rw [partFold_lookup_last tn _ _ (by rw [hl]; simp), hl]
    simp [hj]

/-- Witness for `bim_list_expressions_newline_joined` at concrete strings. -/
theorem bim_list_expressions_newline_joined_witness :
    joinNl (.arr ["let", "  Source = X"]) = "let" ++ "\n" ++ "  Source = X"
    ∧ bimMeasures
        ⟨"m", [⟨"T", false, "", [],
          [⟨"M", .arr ["let", "  Source = X"], "", "", false, ""⟩],
          [⟨⟨"m", .arr ["let", "  Source = X"]⟩⟩]⟩], [],
          [⟨"E", .arr ["let", "  Source = X"]⟩]⟩ =
      [⟨"M", "let" ++ "\n" ++ "  Source = X", "T", "", "", false, ""⟩]
    ∧ dictLookup (bimPQ
        ⟨"m", [⟨"T", false, "", [],
          [⟨"M", .arr ["let", "  Source = X"], "", "", false, ""⟩],
          [⟨⟨"m", .arr ["let", "  Source = X"]⟩⟩]⟩], [],
          [⟨"E", .arr ["let", "  Source = X"]⟩]⟩) "E" =
      some ("let" ++ "\n" ++ "  Source = X")
    ∧ dictLookup (bimPQ
        ⟨"m", [⟨"T", false, "", [],
          [⟨"M", .arr ["let", "  Source = X"], "", "", false, ""⟩],
          [⟨⟨"m", .arr ["let", "  Source = X"]⟩⟩]⟩], [],
          [⟨"E", .arr ["let", "  Source = X"]⟩]⟩) "T" =
      some ("let" ++ "\n" ++ "  Source = X") :=
  bim_list_expressions_newline_joined "let" "  Source = X" "T" "M" "E"
    (by decide) (by decide)

/-! Markdown helpers (utils/markdown.py) and Mermaid diagram rendering
(generators/mermaid.py). The target platform is a plain string, exactly as
in the source (`"github"` / `"azure_devops"`). -/

/-- Embedding of `MarkdownHelper.escape_pipes`. -/
def escapePipes (s : String) : String := ⟨replaceList ['|'] ['\\', '|'] s.data⟩

/-- Embedding of `MarkdownHelper.table` on the default (left) alignments
used by all call sites. -/
def mdTable (headers : List String) (rows : List (List String)) : String :=
  if headers = [] then ""
  else
    let sh := headers.map escapePipes
    let sr := rows.map (fun r => r.map escapePipes)
    let seps := headers.map (fun _ => "---")
    let line1 := "| " ++ pyJoin " | " sh ++ " |"
    let line2 := "| " ++ pyJoin " | " seps ++ " |"
    let rowLines := sr.map (fun row =>
      let padded := row ++ List.replicate (headers.length - row.length) ""
      "| " ++ pyJoin " | " (padded.take headers.length) ++ " |")
    pyJoin "\n" (line1 :: line2 :: rowLines)

/-- Embedding of `_wiki_link` (generators/pages.py). -/
def wikiLink (display slug plat : String) : String :=
  if plat = "azure_devops" then "[" ++ display ++ "](/" ++ slug ++ ")"
  else "[[" ++ display ++ "|" ++ slug ++ "]]"

/-- Embedding of `MarkdownHelper.code_block`. -/
def codeBlock (code lang plat : String) : String :=
  if lang = "mermaid" ∧ plat = "azure_devops" then "::: mermaid\n" ++ code ++ "\n:::"
  else "```" ++ lang ++ "\n" ++ code ++ "\n```"

/-- Embedding of `_sanitize_name` (generators/mermaid.py): the chain of
`str.replace` calls of the source, in order. -/
def sanitizeName (name : String) : String :=
  if name = "" then "UNKNOWN"
  else
    let s1 := replaceList [' '] ['_'] name.data
    let s2 := replaceList ['-'] ['_'] s1
    let s3 := replaceList ['.'] ['_'] s2
    let s4 := replaceList ['('] [] s3
    let s5 := replaceList [')'] [] s4
    let s6 := replaceList ['['] [] s5
    let s7 := replaceList [']'] [] s6
    let s8 := replaceList ['/'] ['_'] s7
    let s9 := replaceList ['"'] [] s8
    let s10 := replaceList ['\''] [] s9
    let s11 := replaceList ['#'] [] s10
    let s12 := replaceList [';'] [] s11
    let s13 := replaceList ['%'] ['p', 'c', 't'] s12
    let s14 := replaceList ['&'] ['a', 'n', 'd'] s13
    let s15 := replaceList ['+'] ['p', 'l', 'u', 's'] s14
    let s16 := replaceList ['@'] ['a', 't'] s15
    let s17 := replaceList ['='] ['_'] s16
    let s18 := replaceList ['\x7b'] [] s17
    let s19 := replaceList ['\x7d'] [] s18
    ⟨s19⟩

/-- Embedding of `_sanitize_label` (generators/mermaid.py). -/
def sanitizeLabel (text : String) : String :=
  if text = "" then ""
  else ⟨replaceList ['#'] [] (replaceList ['"'] ['\''] text.data)⟩

/-- Embedding of `generate_er_diagram` at its call-site defaults
(`include_columns=True`, `max_columns_per_table=10`). -/
def generateErDiagram (relationships : List Relationship) (tables : List Table) : String :=
  let connected := relationships.flatMap (fun r => [r.from_table, r.to_table])
  let relLines := relationships.map (fun rel =>
    let card := if rel.is_active then "||--o\x7b" else "||..o\x7b"
    "    " ++ sanitizeName rel.to_table ++ " " ++ card ++ " " ++ sanitizeName rel.from_table
      ++ " : \"" ++ sanitizeLabel rel.from_column ++ "\"")
  let tableBlocks := tables.flatMap (fun t =>
    if t.columns ≠ [] then
      ["    " ++ sanitizeName t.name ++ " \x7b"]
      ++ (t.columns.take 10).map (fun c =>
          "        " ++ (if c.data_type ≠ "" then sanitizeName c.data_type else "unknown")
            ++ " " ++ sanitizeName c.name)
      ++ (if 10 < t.columns.length then
            ["        string ___plus_" ++ toString (t.columns.length - 10) ++ "_more___"]
          else [])
      ++ ["    \x7d"]
    else if ¬ connected.contains t.name then
      ["    " ++ sanitizeName t.name ++ " \x7b", "        string orphan_table", "    \x7d"]
    else [])
  pyJoin "\n" ("erDiagram" :: (relLines ++ tableBlocks))

/-- Embedding of `generate_table_diagram`. -/
def generateTableDiagram (tableName : String) (relationships : List Relationship) : String :=
  let relevant := relationships.filter
    (fun r => r.from_table = tableName ∨ r.to_table = tableName)
  if relevant = [] then ""
  else
    pyJoin "\n" ("erDiagram" :: relevant.map (fun rel =>
      let card := if rel.is_active then "||--o\x7b" else "||..o\x7b"
      "    " ++ sanitizeName rel.to_table ++ " " ++ card ++ " "
        ++ sanitizeName rel.from_table ++ " : \"" ++ sanitizeLabel rel.from_column ++ "\""))

/-- Embedding of `generate_measure_dependency_graph`'s rendering over
`measureEdges`. -/
def generateMeasureDependencyGraph (measures : List Measure) : String :=
  let edges := measureEdges measures
  if edges = [] then ""
  else
    pyJoin "\n" ("flowchart LR" :: edges.map (fun e =>
      "    " ++ sanitizeName e.1 ++ "[\"" ++ sanitizeLabel e.1 ++ "\"] --> "
        ++ sanitizeName e.2 ++ "[\"" ++ sanitizeLabel e.2 ++ "\"]"))

/-! Page renderers (generators/pages.py). `datetime.now(timezone.utc)` is
the one implicit input of `generate_home_page`; it is modelled as the
explicit `timestamp` argument (the already-formatted string the source
interpolates into the page). -/

/-- Model of Python `sorted(tables, key=lambda t: t.name)` (a stable
ascending sort, as is `List.mergeSort`). -/
def sortTablesByName (tables : List Table) : List Table :=
  tables.mergeSort (fun a b => decide (a.name ≤ b.name))

/-- Model of Python `sorted(measures, key=lambda x: x.name)`. -/
def sortMeasuresByName (measures : List Measure) : List Measure :=
  measures.mergeSort (fun a b => decide (a.name ≤ b.name))

/-- Model of Python `sorted(keys)` for strings. -/
def sortStrings (l : List String) : List String :=
  l.mergeSort (fun a b => decide (a ≤ b))

/-- Model of the f-string format `{n:,}` (thousands separators) for a
non-negative integer: insert a comma after every third digit from the
right. -/
def commaRev : List Char → List Char
  | a :: b :: c :: d :: rest => a :: b :: c :: ',' :: commaRev (d :: rest)
  | l => l

/-- Comma-grouped decimal rendering of a natural number. -/
def natComma (n : Nat) : String := ⟨(commaRev (toString n).data.reverse).reverse⟩

/-- Model of the f-string format `{size_bytes/(1024*1024):.1f} MB`: one
decimal digit. (Python formats the binary double `size_bytes / 1048576`
with round-half-even; this decimal model rounds the exact rational
half-up, which agrees except on ties unrepresentable in the claims.) -/
def formatMB (n : Nat) : String :=
  let t := (n * 10 + 524288) / 1048576
  toString (t / 10) ++ "." ++ toString (t % 10) ++ " MB"

/-- Embedding of `generate_home_page`; `timestamp` models the
`datetime.now(timezone.utc).strftime(...)` value interpolated into the
page. -/
def generateHomePage (timestamp : String) (metadata : ModelMetadata)
    (pfx plat : String) : String :=
  let tableLinks := pyJoin "\n" ((sortTablesByName metadata.tables).map (fun t =>
    "- " ++ wikiLink t.name (pfx ++ "Table-" ++ slugify t.name) plat))
  let summaryRows :=
    [["Tables", toString metadata.tables.length],
     ["Measures", toString metadata.measures.length],
     ["Relationships", toString metadata.relationships.length]]
    ++ (match metadata.size_bytes with
        | some n => if n ≠ 0 then [["Model Size", formatMB n]] else []
        | none => [])
  let summaryTable := mdTable ["Metric", "Value"] summaryRows
  "# " ++ metadata.name ++ " - Semantic Model Documentation\n\n> Auto-generated on "
    ++ timestamp ++ "\n\n## Model Overview\n\n" ++ summaryTable
    ++ "\n\n## Quick Navigation\n\n### Tables\n\n" ++ tableLinks
    ++ "\n\n### Other Pages\n\n- " ++ wikiLink "All Measures" (pfx ++ "Measures") plat
    ++ "\n- " ++ wikiLink "Relationships" (pfx ++ "Relationships") plat
    ++ "\n- " ++ wikiLink "Data Sources" (pfx ++ "Data-Sources") plat
    ++ "\n\n---\n\n_This documentation is automatically generated from the PBIX file.\nDo not edit manually â€” changes will be overwritten on next generation._\n"

/-- Embedding of `generate_table_page`. -/
def generateTablePage (table : Table) (measures : List Measure)
    (relationships : List Relationship) (pfx plat : String) : String :=
  let colRows := table.columns.map (fun c => [c.name, c.data_type, c.description])
  let columnsTable :=
    if colRows ≠ [] then mdTable ["Column", "Data Type", "Description"] colRows
    else "_No columns found._"
  let tms := measures.filter (fun m => m.table = table.name)
  let measuresSection :=
    if tms ≠ [] then
      "\n## Measures\n\n" ++ String.join (tms.map (fun m =>
        "### " ++ m.name ++ "\n\n"
        ++ (if m.description ≠ "" then "_" ++ m.description ++ "_\n\n" else "")
        ++ codeBlock m.expression "dax" "github" ++ "\n\n"
        ++ (if m.format_string ≠ "" then "**Format:** `" ++ m.format_string ++ "`\n\n" else "")))
    else ""
  let tdiag := generateTableDiagram table.name relationships
  let diagramSection :=
    if tdiag ≠ "" then "\n## Relationships\n\n" ++ codeBlock tdiag "mermaid" plat ++ "\n"
    else ""
  let description := if table.description ≠ "" then "\n_" ++ table.description ++ "_\n" else ""
  let rowInfo := match table.row_count with
    | some rc => "\n**Row count:** " ++ natComma rc ++ "\n"
    | none => ""
  "# " ++ table.name ++ "\n" ++ description ++ rowInfo ++ "\n## Columns\n\n"
    ++ columnsTable ++ "\n" ++ measuresSection ++ diagramSection
    ++ "\n\n---\n\n" ++ wikiLink "← Back to Home" (pfx ++ "Home") plat ++ "\n"

/-- Embedding of `generate_measures_page`. The `by_table` dict is modelled
through first-occurrence keys (`dedup`) and per-key filtering, matching
`dict.setdefault` grouping. -/
def generateMeasuresPage (measures : List Measure) (pfx plat : String) : String :=
  let keys := (measures.map Measure.table).dedup
  let groupOfT := fun k => measures.filter (fun m => m.table = k)
  let toc := String.join ((sortStrings keys).map (fun k =>
    "- [" ++ k ++ "](#" ++ ⟨replaceList [' '] ['-'] (pyLower k).data⟩ ++ ") ("
      ++ toString (groupOfT k).length ++ " measures)\n"))
  let details := String.join ((sortStrings keys).map (fun k =>
    "## " ++ k ++ "\n\n" ++ String.join ((sortMeasuresByName (groupOfT k)).map (fun m =>
      "### " ++ m.name ++ "\n\n"
      ++ (if m.description ≠ "" then "_" ++ m.description ++ "_\n\n" else "")
      ++ codeBlock m.expression "dax" "github" ++ "\n\n"
      ++ (if m.format_string ≠ "" then "**Format:** `" ++ m.format_string ++ "`\n\n" else "")))))
  let depGraph := generateMeasureDependencyGraph measures
  let depSection :=
    if depGraph ≠ "" then
      "---\n\n## Measure Dependencies\n\n" ++ codeBlock depGraph "mermaid" plat ++ "\n"
    else ""
  "# DAX Measures Reference\n\n**Total measures:** " ++ toString measures.length
    ++ "\n\n## Contents\n\n" ++ toc ++ "\n---\n\n" ++ details ++ depSection
    ++ "\n---\n\n" ++ wikiLink "← Back to Home" (pfx ++ "Home") plat ++ "\n"

/-- Embedding of `generate_relationships_page`. -/
def generateRelationshipsPage (relationships : List Relationship) (tables : List Table)
    (pfx plat : String) : String :=
  let er := generateErDiagram relationships tables
  let rows := relationships.map (fun r =>
    [r.from_table, r.from_column, r.to_table, r.to_column,
     if r.is_active then "Yes" else "No", r.cross_filter_direction])
  let activeCount := (relationships.filter (fun r => r.is_active)).length
  "# Model Relationships\n\n## Entity Relationship Diagram\n\n"
    ++ codeBlock er "mermaid" plat ++ "\n\n## Relationship Details\n\n"
    ++ mdTable ["From Table", "From Column", "To Table", "To Column", "Active", "Direction"] rows
    ++ "\n\n## Statistics\n\n- **Total relationships:** " ++ toString relationships.length
    ++ "\n- **Active:** " ++ toString activeCount
    ++ "\n- **Inactive:** " ++ toString (relationships.length - activeCount)
    ++ "\n\n---\n\n" ++ wikiLink "← Back to Home" (pfx ++ "Home") plat ++ "\n"

/-- Embedding of `generate_data_sources_page`. -/
def generateDataSourcesPage (powerQuery : List (String × String)) (pfx plat : String) : String :=
  let body :=
    if powerQuery = [] then "_No Power Query expressions found._\n"
    else String.join ((sortStrings (powerQuery.map (fun p => p.1))).map (fun k =>
      "## " ++ k ++ "\n\n" ++ codeBlock ((dictLookup powerQuery k).getD "") "powerquery" "github"
        ++ "\n\n"))
  "# Data Sources\n\nThis page documents the Power Query/M expressions used to load data.\n\n"
    ++ body ++ "\n---\n\n" ++ wikiLink "← Back to Home" (pfx ++ "Home") plat ++ "\n"

/-- Embedding of `generate_sidebar`. -/
def generateSidebar (metadata : ModelMetadata) (pfx plat : String) : String :=
  "**Navigation**\n\n- " ++ wikiLink "Home" (pfx ++ "Home") plat
    ++ "\n- " ++ wikiLink "Measures" (pfx ++ "Measures") plat
    ++ "\n- " ++ wikiLink "Relationships" (pfx ++ "Relationships") plat
    ++ "\n- " ++ wikiLink "Data Sources" (pfx ++ "Data-Sources") plat
    ++ "\n\n**Tables**\n\n"
    ++ String.join ((sortTablesByName metadata.tables).map (fun t =>
        "- " ++ wikiLink t.name (pfx ++ "Table-" ++ slugify t.name) plat ++ "\n"))

/-- Embedding of `generate_order_file`. -/
def generateOrderFile (metadata : ModelMetadata) (pfx : String) : String :=
  pyJoin "\n"
    ([pfx ++ "Home", pfx ++ "Measures", pfx ++ "Relationships", pfx ++ "Data-Sources"]
      ++ (sortTablesByName metadata.tables).map (fun t => pfx ++ "Table-" ++ slugify t.name))
    ++ "\n"

/-- Embedding of `WikiGenerator._generate_pages`'s page set (page name to
content, in write order; the `.order` file is emitted only on the
`azure_devops` platform). -/
def generateAllPages (timestamp : String) (metadata : ModelMetadata)
    (pfx plat : String) : List (String × String) :=
  (pfx ++ "Home", generateHomePage timestamp metadata pfx plat)
  :: (metadata.tables.map (fun t =>
        (pfx ++ "Table-" ++ slugify t.name,
         generateTablePage t metadata.measures metadata.relationships pfx plat))
      ++ [(pfx ++ "Measures", generateMeasuresPage metadata.measures pfx plat),
          (pfx ++ "Relationships",
           generateRelationshipsPage metadata.relationships metadata.tables pfx plat),
          (pfx ++ "Data-Sources", generateDataSourcesPage metadata.power_query pfx plat),
          (pfx ++ "_Sidebar", generateSidebar metadata pfx plat)]
      ++ (if plat = "azure_devops" then [(".order", generateOrderFile metadata pfx)] else []))

/-- Counterexample to claim C1 as stated: the home page embeds the
generation timestamp (`datetime.now(timezone.utc)` in the source, the
explicit `timestamp` argument here), so rendering the same model twice at
different times does not produce byte-identical output. -/
theorem home_page_depends_on_time :
    generateHomePage "2024-01-01 00:00 UTC" ⟨"M", "", [], [], [], [], none⟩ "" "github"
      ≠ generateHomePage "2024-01-02 00:00 UTC" ⟨"M", "", [], [], [], [], none⟩ "" "github" := by
  decide

/-- Claim C1 as amended: rendering is deterministic in the model, platform,
prefix and generation timestamp, and every page of the set other than the
home page (the head of the page list) is independent of the timestamp; the
home page alone embeds the current time. -/
theorem page_set_deterministic_except_home (t₁ t₂ : String) (m : ModelMetadata)
    (pfx plat : String) :
    (generateAllPages t₁ m pfx plat).drop 1 = (generateAllPages t₂ m pfx plat).drop 1
    ∧ (generateAllPages t₁ m pfx plat).head?.map (fun p => p.1) = some (pfx ++ "Home") := by
  constructor
  · rfl
  · rfl

/-! Embedding of the TMDL (structured-text) parser: `_parse_tmdl_table`,
`_parse_tmdl_column`, `_parse_tmdl_measure`, `_parse_tmdl_partition_m`,
`_parse_tmdl_relationships`, `_parse_tmdl_expressions` and
`_find_tmdl_dir`. -/

/-- Least index `≥ k` of an `=` character in a character list. -/
def findEqFrom (k : Nat) (cs : List Char) : Option Nat :=
  ((cs.drop k).findIdx? (fun c => c = '=')).map (fun i => i + k)

/-- Model of `re.match(kw + r"\s+(.+?)\s*=\s*(.*)", s)` followed by
`.strip()` on both groups, as used for `measure` and `expression`
declarations. The regex matches iff `s` starts with `kw`, the next
character is whitespace, and some `=` occurs at index at least
`len(kw) + 2` (the lazy first group needs one character); the separator is
the first such `=`; the stripped group values are then the stripped text
strictly between the keyword and the separator, and the stripped text
after the separator. -/
def reDeclSplit (kw : String) (s : String) : Option (String × String) :=
  let k := kw.data.length
  let wsNext : Bool := match s.data.drop k with
    | c :: _ => pyIsSpace c
    | [] => false
  if strStartsWith kw s && wsNext then
    match findEqFrom (k + 2) s.data with
    | some c => some (pyStrip ⟨(s.data.drop (k + 1)).take (c - (k + 1))⟩,
                      pyStrip ⟨s.data.drop (c + 1)⟩)
    | none => none
  else none

/-- Model of `re.match(r"(.+?)\s*=\s*", col_part)` followed by `.strip()`
on the group: the separator is the first `=` at index at least 1, and the
group value is the stripped text before it. -/
def colDeclSplit (s : String) : Option String :=
  match findEqFrom 1 s.data with
  | some c => some (pyStrip ⟨s.data.take c⟩)
  | none => none

/-- Model of `re.match(r"source\s*=\s*(.*)", prop)` followed by `.strip()`
on the group, for a `prop` that starts with `source`: after `source` and
optional whitespace an `=` must follow; the value is the stripped
remainder. -/
def sourceSplit (prop : String) : Option String :=
  match (prop.data.drop 6).dropWhile pyIsSpace with
  | '=' :: tail => some (pyStrip ⟨tail⟩)
  | _ => none

/-- Does a character list match the regex tail `\s+meta\s+\[.*\]\s*$`? -/
def metaTail (t : List Char) : Bool :=
  let t1 := t.dropWhile pyIsSpace
  decide (t1.length < t.length) &&
  ("meta".data.isPrefixOf t1) &&
  (let t2 := t1.drop 4
   let t3 := t2.dropWhile pyIsSpace
   decide (t3.length < t2.length) &&
   (match t3 with
    | '[' :: t4 =>
      let r := (t4.reverse.dropWhile pyIsSpace).reverse
      decide (r ≠ []) && decide (r.getLast? = some ']')
    | _ => false))

/-- Scan for the shortest (lazy) first group of
`re.match(r"(.*?)\s+meta\s+\[.*\]\s*$", s)`. -/
def stripMetaAux (acc : List Char) : List Char → Option (List Char)
  | [] => if metaTail [] then some acc.reverse else none
  | c :: rest =>
    if metaTail (c :: rest) then some acc.reverse
    else stripMetaAux (c :: acc) rest

/-- Model of the `meta [...]` annotation stripping applied to the first
line of an `expression` declaration: on a regex match, the stripped first
group; otherwise the line unchanged. -/
def stripMeta (s : String) : String :=
  match stripMetaAux [] s.data with
  | some g1 => pyStrip ⟨g1⟩
  | none => s

/-- Embedding of the multi-line value collection loop shared by
`_parse_tmdl_partition_m`'s `source` block and `_parse_tmdl_expressions`:
blank lines contribute an empty string, a non-blank line at or below the
opening indentation stops the collection, anything else contributes its
stripped text. Returns the collected lines and the unread remainder. -/
def collectSource (indent0 : Nat) : List String → List String × List String
  | [] => ([], [])
  | l :: rest =>
    if pyStrip l = "" then
      let r := collectSource indent0 rest
      ("" :: r.1, r.2)
    else if indentLevel l ≤ indent0 then ([], l :: rest)
    else
      let r := collectSource indent0 rest
      (pyStrip l :: r.1, r.2)

lemma collectSource_len (indent0 : Nat) (ls : List String) :
    (collectSource indent0 ls).2.length ≤ ls.length := by
  induction ls with
  | nil => simp [collectSource]
  | cons l rest ih =>
    by_cases h1 : pyStrip l = ""
    · simp only [collectSource, h1, if_true, List.length_cons]
      exact le_trans ih (Nat.le_succ _)
    · by_cases h2 : indentLevel l ≤ indent0
      · simp [collectSource, h1, h2]
      · simp only [collectSource, h1, h2, if_false, List.length_cons]
        exact le_trans ih (Nat.le_succ _)

/-- Embedding of `_parse_tmdl_measure`'s multi-line expression collection:
as `collectSource`, but a non-blank line at indentation at most
`indent0 + 1` stops the collection only when it looks like a property
(contains a colon, or is the bare flag `isHidden`, or sits at or below
`indent0`). -/
def collectExpr (indent0 : Nat) : List String → List String × List String
  | [] => ([], [])
  | l :: rest =>
    if pyStrip l = "" then
      let r := collectExpr indent0 rest
      ("" :: r.1, r.2)
    else if indentLevel l ≤ indent0 + 1 ∧
        ((pyStrip l).data.contains ':' ∨ pyStrip l = "isHidden" ∨ indentLevel l ≤ indent0) then
      ([], l :: rest)
    else
      let r := collectExpr indent0 rest
      (pyStrip l :: r.1, r.2)

lemma collectExpr_len (indent0 : Nat) (ls : List String) :
    (collectExpr indent0 ls).2.length ≤ ls.length := by
  induction ls with
  | nil => simp [collectExpr]
  | cons l rest ih =>
    unfold collectExpr
    split
    · exact le_trans ih (Nat.le_succ _)
    · split
      · exact le_refl _
      · exact le_trans ih (Nat.le_succ _)

/-- Accumulator of `_parse_tmdl_column`'s property scan. -/
structure ColAcc where
  dtype : String
  hiddenFlag : Bool
deriving DecidableEq, Repr

/-- Embedding of the property dispatch inside `_parse_tmdl_column`. -/
def colUpdate (acc : ColAcc) (prop : String) : ColAcc :=
  if strStartsWith "dataType:" prop then { acc with dtype := propValue "dataType:" prop }
  else if prop = "isHidden" then { acc with hiddenFlag := true }
  else acc

/-- Embedding of `_parse_tmdl_column`: `decl` is the `column ...` line
(with its original indentation); returns the Column and the unread
remainder. -/
def parseTmdlColumn (decl : String) (rest : List String) (tname desc : String) :
    Column × List String :=
  let s := pyStrip decl
  let colPart := pyStrip ⟨s.data.drop 7⟩
  let name := unquote ((colDeclSplit colPart).getD colPart)
  let r := scanProps (indentLevel decl) colUpdate rest ⟨"unknown", false⟩
  (⟨name, r.1.dtype, tname, r.1.hiddenFlag, desc⟩, r.2)

lemma parseTmdlColumn_len (decl : String) (rest : List String) (tname desc : String) :
    (parseTmdlColumn decl rest tname desc).2.length ≤ rest.length := by
  unfold parseTmdlColumn
  exact scanProps_len _ _ _ _

/-- Accumulator of `_parse_tmdl_measure`'s property scan. -/
structure MeasAcc where
  fmt : String
  folder : String
  hiddenFlag : Bool
deriving DecidableEq, Repr

/-- Embedding of the property dispatch inside `_parse_tmdl_measure`. -/
def measUpdate (acc : MeasAcc) (prop : String) : MeasAcc :=
  if strStartsWith "formatString:" prop then { acc with fmt := propValue "formatString:" prop }
  else if strStartsWith "displayFolder:" prop then
    { acc with folder := unquote (propValue "displayFolder:" prop) }
  else if prop = "isHidden" then { acc with hiddenFlag := true }
  else acc

/-- The `measure` declaration-line regex. -/
def measureDeclSplit (s : String) : Option (String × String) := reDeclSplit "measure" s

/-- Embedding of `_parse_tmdl_measure`: parse the declaration line, collect
a multi-line expression when the inline one is empty, then scan the
property block. -/
def parseTmdlMeasure (decl : String) (rest : List String) (tname desc : String) :
    Measure × List String :=
  let s := pyStrip decl
  let nameExpr := match measureDeclSplit s with
    | some p => (unquote p.1, p.2)
    | none => (unquote (pyStrip ⟨s.data.drop 8⟩), "")
  let indent0 := indentLevel decl
  let collected := if nameExpr.2 = "" then collectExpr indent0 rest else ([], rest)
  let expression := if nameExpr.2 = "" then pyStrip (pyJoin "\n" collected.1) else nameExpr.2
  let r := scanProps indent0 measUpdate collected.2 ⟨"", "", false⟩
  (⟨nameExpr.1, expression, tname, desc, r.1.fmt, r.1.hiddenFlag, r.1.folder⟩, r.2)

lemma parseTmdlMeasure_len (decl : String) (rest : List String) (tname desc : String) :
    (parseTmdlMeasure decl rest tname desc).2.length ≤ rest.length := by
  unfold parseTmdlMeasure
  by_cases h : (match measureDeclSplit (pyStrip decl) with
    | some p => (unquote p.1, p.2)
    | none => (unquote (pyStrip ⟨(pyStrip decl).data.drop 8⟩), "")).2 = ""
  · simp only [h, if_true]
    exact le_trans (scanProps_len _ _ _ _) (collectExpr_len _ _)
  · simp only [h, if_false]
    exact scanProps_len _ _ _ _

/-- Embedding of the scanning loop of `_parse_tmdl_partition_m`: look for
`source = ...` properties strictly inside the partition block, parsing
each with the shared multi-line rule (a later `source` overwrites an
earlier one). -/
def partitionLoop (indent0 : Nat) : List String → String → String × List String
  | [], expr => (expr, [])
  | l :: rest, expr =>
    if pyStrip l = "" then partitionLoop indent0 rest expr
    else if indentLevel l ≤ indent0 then (expr, l :: rest)
    else if strStartsWith "source" (pyStrip l) then
      match sourceSplit (pyStrip l) with
      | some firstLine =>
        let col := collectSource (indentLevel l) rest
        partitionLoop indent0 col.2
          (pyStrip (pyJoin "\n" ((if firstLine ≠ "" then [firstLine] else []) ++ col.1)))
      | none => partitionLoop indent0 rest expr
    else partitionLoop indent0 rest expr
termination_by ls _ => ls.length
decreasing_by
  · simp only [List.length_cons]
    omega
  · simp only [List.length_cons]
    exact Nat.lt_succ_of_le (collectSource_len _ _)
  · simp only [List.length_cons]
    omega
  · simp only [List.length_cons]
    omega

lemma partitionLoop_len (indent0 : Nat) (ls : List String) (expr : String) :
    (partitionLoop indent0 ls expr).2.length ≤ ls.length := by
  induction ls, expr using partitionLoop.induct indent0 with
  | case1 e => simp [partitionLoop]
  | case2 l rest e h1 ih =>
    rw [partitionLoop, if_pos h1]
    exact le_trans ih (Nat.le_succ _)
  | case3 l rest e h1 h2 =>
    rw [partitionLoop, if_neg h1, if_pos h2]
  | case4 l rest e h1 h2 h3 fl hsplit col ih =>
    rw [partitionLoop, if_neg h1, if_neg h2, if_pos h3, hsplit]
    exact le_trans ih (le_trans (collectSource_len _ _) (Nat.le_succ _))
  | case5 l rest e h1 h2 h3 hsplit ih =>
    rw [partitionLoop, if_neg h1, if_neg h2, if_pos h3, hsplit]
    exact le_trans ih (Nat.le_succ _)
  | case6 l rest e h1 h2 h3 ih =>
    rw [partitionLoop, if_neg h1, if_neg h2, if_neg h3]
    exact le_trans ih (Nat.le_succ _)

/-- Embedding of `_parse_tmdl_partition_m`. -/
def parseTmdlPartitionM (decl : String) (rest : List String) : String × List String :=
  partitionLoop (indentLevel decl) rest ""

lemma parseSingleRelationshipAux_len (decl : String) (rest : List String) :
    (parseSingleRelationshipAux decl rest).2.length ≤ rest.length := by
  unfold parseSingleRelationshipAux
  exact scanProps_len _ _ _ _

/-- Accumulator of `_parse_tmdl_table`'s forward scan. -/
structure TAcc where
  tname : String
  thidden : Bool
  tdesc : String
  cols : List Column
  meas : List Measure
  pq : List (String × String)
deriving DecidableEq, Repr

/-- Is a line a `///` doc-comment line? -/
def isDocLine (x : String) : Bool := strStartsWith "///" (pyStrip x)

/-- Embedding of `_parse_tmdl_table`'s main loop: table declaration,
table-level `isHidden` (only before any column or measure), buffered `///`
description blocks re-attached to the following declaration, column and
measure declarations, and M partitions (keyed by the table name, last one
winning). -/
def tableLoop : List String → TAcc → TAcc
  | [], acc => acc
  | l :: rest, acc =>
    let s := pyStrip l
    if strStartsWith "table " s then
      tableLoop rest { acc with tname := unquote (pyStrip ⟨s.data.drop 6⟩) }
    else if s = "isHidden" ∧ acc.cols = [] ∧ acc.meas = [] then
      tableLoop rest { acc with thidden := true }
    else if strStartsWith "///" s then
      let descLines := ((l :: rest).takeWhile isDocLine).map
        (fun x => pyStrip ⟨(pyStrip x).data.drop 3⟩)
      let desc := pyJoin " " descLines
      match hdw : rest.dropWhile isDocLine with
      | [] => acc
      | n :: rest'' =>
        let ns := pyStrip n
        if strStartsWith "table " ns then
          tableLoop (n :: rest'') { acc with tdesc := desc }
        else if strStartsWith "column " ns then
          let pr := parseTmdlColumn n rest'' acc.tname desc
          tableLoop pr.2 { acc with cols := acc.cols ++ [pr.1] }
        else if strStartsWith "measure " ns then
          let pr := parseTmdlMeasure n rest'' acc.tname desc
          tableLoop pr.2 { acc with meas := acc.meas ++ [pr.1] }
        else tableLoop (n :: rest'') acc
    else if strStartsWith "column " s then
      let pr := parseTmdlColumn l rest acc.tname ""
      tableLoop pr.2 { acc with cols := acc.cols ++ [pr.1] }
    else if strStartsWith "measure " s then
      let pr := parseTmdlMeasure l rest acc.tname ""
      tableLoop pr.2 { acc with meas := acc.meas ++ [pr.1] }
    else if strStartsWith "partition " s ∧ strEndsWith "= m" s then
      let pr := parseTmdlPartitionM l rest
      tableLoop pr.2 (if pr.1 ≠ "" then { acc with pq := dictInsert acc.pq acc.tname pr.1 } else acc)
    else tableLoop rest acc
termination_by ls _ => ls.length
decreasing_by
  · simp only [List.length_cons]
    omega
  · simp only [List.length_cons]
    omega
  · simp only [List.length_cons]
    have h1 : (rest.dropWhile isDocLine).length ≤ rest.length :=
      (List.dropWhile_sublist isDocLine).length_le
    rw [hdw] at h1
    simp only [List.length_cons] at h1
    omega
  · simp only [List.length_cons]
    have h1 : (rest.dropWhile isDocLine).length ≤ rest.length :=
      (List.dropWhile_sublist isDocLine).length_le
    rw [hdw] at h1
    simp only [List.length_cons] at h1
    have h2 := parseTmdlColumn_len n rest'' acc.tname
      (pyJoin " " (((l :: rest).takeWhile isDocLine).map
        (fun x => pyStrip ⟨(pyStrip x).data.drop 3⟩)))
    omega
  · simp only [List.length_cons]
    have h1 : (rest.dropWhile isDocLine).length ≤ rest.length :=
      (List.dropWhile_sublist isDocLine).length_le
    rw [hdw] at h1
    simp only [List.length_cons] at h1
    have h2 := parseTmdlMeasure_len n rest'' acc.tname
      (pyJoin " " (((l :: rest).takeWhile isDocLine).map
        (fun x => pyStrip ⟨(pyStrip x).data.drop 3⟩)))
    omega
  · simp only [List.length_cons]
    have h1 : (rest.dropWhile isDocLine).length ≤ rest.length :=
      (List.dropWhile_sublist isDocLine).length_le
    rw [hdw] at h1
    simp only [List.length_cons] at h1
    omega
  · simp only [List.length_cons]
    have h2 := parseTmdlColumn_len l rest acc.tname ""
    omega
  · simp only [List.length_cons]
    have h2 := parseTmdlMeasure_len l rest acc.tname ""
    omega
  · simp only [List.length_cons]
    have h2 : (parseTmdlPartitionM l rest).2.length ≤ rest.length := by
      unfold parseTmdlPartitionM
      exact partitionLoop_len (indentLevel l) rest ""
    omega
  · simp only [List.length_cons]
    omega

/-- Embedding of `_parse_tmdl_table` on a file's lines: the resulting
Table (row count stays unset), its measures, and its power-query dict. -/
def parseTmdlTable (lines : List String) : Table × List Measure × List (String × String) :=
  let acc := tableLoop lines ⟨"", false, "", [], [], []⟩
  (⟨acc.tname, acc.cols, none, acc.thidden, acc.tdesc⟩, acc.meas, acc.pq)

/-- Embedding of `_parse_tmdl_relationships`' loop over a file's lines. -/
def relLoop : List String → List Relationship → List Relationship
  | [], acc => acc
  | l :: rest, acc =>
    if strStartsWith "relationship " (pyStrip l) then
      let pr := parseSingleRelationshipAux l rest
      relLoop pr.2 (acc ++ [pr.1])
    else relLoop rest acc
termination_by ls _ => ls.length
decreasing_by
  · simp only [List.length_cons]
    have h2 := parseSingleRelationshipAux_len l rest
    omega
  · simp only [List.length_cons]
    omega

/-- Relationships parsed from a relationships file's lines. -/
def parseTmdlRelationshipsLines (lines : List String) : List Relationship :=
  relLoop lines []

/-- The `expression` declaration-line regex. -/
def exprDeclSplit (s : String) : Option (String × String) := reDeclSplit "expression" s

/-- Embedding of `_parse_tmdl_expressions`' loop over a file's lines:
`expression name = value [meta [...]]` declarations, with the shared
multi-line continuation rule and the `meta` annotation stripped from the
first line. -/
def exprLoop : List String → List (String × String) → List (String × String)
  | [], acc => acc
  | l :: rest, acc =>
    if strStartsWith "expression " (pyStrip l) then
      match exprDeclSplit (pyStrip l) with
      | some p =>
        let fl := stripMeta p.2
        let col := collectSource (indentLevel l) rest
        exprLoop col.2 (dictInsert acc (unquote p.1)
          (pyStrip (pyJoin "\n" ((if fl ≠ "" then [fl] else []) ++ col.1))))
      | none => exprLoop rest acc
    else exprLoop rest acc
termination_by ls _ => ls.length
decreasing_by
  · simp only [List.length_cons]
    have h2 := collectSource_len (indentLevel l) rest
    omega
  · simp only [List.length_cons]
    omega
  · simp only [List.length_cons]
    omega

/-- Shared power-query expressions parsed from an expressions file's
lines. -/
def parseTmdlExpressionsLines (lines : List String) : List (String × String) :=
  exprLoop lines []

/-! Filesystem lookup for `_find_tmdl_dir`. The filesystem is modelled as
finite sets of directory and file paths (a path is its list of segments);
`iterdir` enumerates the entries in the model's list order (the OS order
is unspecified). -/

/-- A modelled filesystem: the existing directories and files. -/
structure FS where
  dirs : List (List String)
  files : List (List String)

/-- Model of `Path.is_dir()`. -/
def FS.isDir (fs : FS) (p : List String) : Bool := fs.dirs.contains p

/-- Model of `Path.exists()`. -/
def FS.pathExists (fs : FS) (p : List String) : Bool :=
  fs.dirs.contains p || fs.files.contains p

/-- Names of the entries of a directory (model of `Path.iterdir()`). -/
def childNames (fs : FS) (p : List String) : List String :=
  (fs.dirs ++ fs.files).filterMap (fun q =>
    if q.length = p.length + 1 ∧ q.take p.length = p then q.getLast? else none)

/-- Embedding of `_find_semantic_model_dir`: the first child directory
whose name ends in `.SemanticModel` or `.Dataset`, else the parent itself
when it directly holds `model.bim` or a `definition` directory. -/
def findSemanticModelDir (fs : FS) (parent : List String) : Option (List String) :=
  match (childNames fs parent).find? (fun n =>
      fs.isDir (parent ++ [n]) &&
      (strEndsWith ".SemanticModel" n || strEndsWith ".Dataset" n)) with
  | some n => some (parent ++ [n])
  | none =>
    if fs.pathExists (parent ++ ["model.bim"]) || fs.isDir (parent ++ ["definition"]) then
      some parent
    else none

/-- Model of `pathlib`'s `suffix` of a file name: the extension from the
last dot, empty when there is no dot, when the dot is the first character
(a dotfile) or the last character. -/
def nameSuffix (n : String) : String :=
  let cs := n.data
  match cs.reverse.findIdx? (fun c => c = '.') with
  | some ri =>
    let i := cs.length - 1 - ri
    if 0 < i ∧ i < cs.length - 1 then ⟨cs.drop i⟩ else ""
  | none => ""

/-- Model of `path.suffix.lower() == ".pbip"`. -/
def isPbipPath (p : List String) : Bool :=
  pyLower (nameSuffix ((p.getLast?).getD "")) = ".pbip"

/-- Rendering of a path for error messages (model of `str(Path)`). -/
def pathStr (p : List String) : String := pyJoin "/" p

/-- The `sm_dir / "definition"` step shared by the `.pbip` and directory
fallbacks of `_find_tmdl_dir`. -/
def smDefn (fs : FS) (sm : Option (List String)) : Option (List String) :=
  match sm with
  | some d => if fs.isDir (d ++ ["definition"]) then some (d ++ ["definition"]) else none
  | none => none

/-- Embedding of `_find_tmdl_dir`: the cascading lookup for a TMDL
definition folder, raising `FileNotFoundError` (an `Except.error` carrying
the searched path) when every step fails. -/
def findTmdlDir (fs : FS) (p : List String) : Except String (List String) :=
  if fs.isDir p ∧ fs.isDir (p ++ ["tables"]) then .ok p
  else if fs.isDir (p ++ ["definition"]) ∧ fs.isDir (p ++ ["definition", "tables"]) then
    .ok (p ++ ["definition"])
  else
    match (if isPbipPath p then smDefn fs (findSemanticModelDir fs p.dropLast) else none) with
    | some d => .ok d
    | none =>
      match (if fs.isDir p then smDefn fs (findSemanticModelDir fs p) else none) with
      | some d => .ok d
      | none => .error ("TMDL definition folder not found at: " ++ pathStr p)

lemma colUpdate_dtype_of_not (acc : ColAcc) (p : String)
    (h : ¬ strStartsWith "dataType:" p = true) :
    (colUpdate acc p).dtype = acc.dtype := by
  unfold colUpdate
  rw [if_neg h]
  split_ifs <;> rfl

lemma colUpdate_dtype_of_match (acc : ColAcc) (p : String)
    (h : strStartsWith "dataType:" p = true) :
    (colUpdate acc p).dtype = propValue "dataType:" p := by
  unfold colUpdate
  rw [if_pos h]

lemma mem_pyStripList {c : Char} {l : List Char} (h : c ∈ pyStripList l) : c ∈ l := by
  unfold pyStripList at h
  rw [List.mem_reverse] at h
  have h2 := (List.dropWhile_sublist pyIsSpace).mem h
  rw [List.mem_reverse] at h2
  exact (List.dropWhile_sublist pyIsSpace).mem h2

lemma findEqFrom_none_of_no_eq {k : Nat} {cs : List Char} (h : '=' ∉ cs) :
    findEqFrom k cs = none := by
  unfold findEqFrom
  have hidx : (cs.drop k).findIdx? (fun c => c = '=') = none := by
    rw [List.findIdx?_eq_none_iff]
    intro x hx
    have hxm : x ∈ cs := (List.drop_sublist k cs).mem hx
    by_contra hb
    rw [Bool.not_eq_false, decide_eq_true_eq] at hb
    exact h (hb ▸ hxm)
  rw [hidx]
  rfl

lemma measureDeclSplit_none_of_no_eq {s : String} (h : '=' ∉ s.data) :
    measureDeclSplit s = none := by
  simp only [measureDeclSplit, reDeclSplit, findEqFrom_none_of_no_eq h, ite_self]

/-- Claim C9: the structured-text parsers are total on arbitrary line
lists — table, relationship and expression parsing always return a result
— with unparseable fields taking the documented defaults (a column with no
`dataType:` property gets `"unknown"`, a measure declaration with no `=`
and no continuation lines gets an empty formula); the only hard failure is
the missing-definition-folder lookup, whose error message names the path
that was searched. -/
theorem tmdl_parser_total_with_defaults :
    (∀ lines : List String, ∃ t ms pq, parseTmdlTable lines = (t, ms, pq))
    ∧ (∀ lines : List String, ∃ rels, parseTmdlRelationshipsLines lines = rels)
    ∧ (∀ lines : List String, ∃ exprs, parseTmdlExpressionsLines lines = exprs)
    ∧ (∀ decl tn d, ∀ rest : List String,
        (parseTmdlColumn decl rest tn d).1.data_type =
          (lastPropValue "dataType:" (blockOf (indentLevel decl) rest)).getD "unknown")
    ∧ (∀ decl tn d, '=' ∉ decl.data →
        (parseTmdlMeasure decl [] tn d).1.expression = "")
    ∧ (∀ (fs : FS) (p : List String),
        (∃ dir, findTmdlDir fs p = .ok dir)
        ∨ findTmdlDir fs p = .error ("TMDL definition folder not found at: " ++ pathStr p)) := by
  refine ⟨fun lines => ⟨_, _, _, rfl⟩, fun lines => ⟨_, rfl⟩, fun lines => ⟨_, rfl⟩,
    ?_, ?_, ?_⟩
  · intro decl tn d rest
    show (scanProps (indentLevel decl) colUpdate rest ⟨"unknown", false⟩).1.dtype = _
    rw [scanProps_fst]
    rw [foldl_lastPropValue colUpdate ColAcc.dtype (fun v => v) "dataType:"
      colUpdate_dtype_of_not colUpdate_dtype_of_match]
    cases lastPropValue "dataType:" (blockOf (indentLevel decl) rest) <;> rfl
  · intro decl tn d h
    have hs : '=' ∉ (pyStrip decl).data := fun hm => h (mem_pyStripList hm)
    have hsplit : measureDeclSplit (pyStrip decl) = none := measureDeclSplit_none_of_no_eq hs
    simp only [parseTmdlMeasure, hsplit]
    rfl
  · intro fs p
    unfold findTmdlDir
    repeat' split
    all_goals first
      | exact Or.inl ⟨_, rfl⟩
      | exact Or.inr rfl

/-- Witness for `tmdl_parser_total_with_defaults`: concrete defaults — a
column block with no `dataType:` yields `"unknown"`, a measure line with
no `=` yields an empty formula, and a lookup on an empty filesystem yields
the error naming the searched path. -/
theorem tmdl_parser_total_with_defaults_witness :
    (parseTmdlColumn "\tcolumn Foo" ["\t\tisHidden"] "T" "").1.data_type = "unknown"
    ∧ (parseTmdlMeasure "measure Foo" [] "T" "").1.expression = ""
    ∧ findTmdlDir ⟨[], []⟩ ["proj", "model"] =
        .error ("TMDL definition folder not found at: " ++ pathStr ["proj", "model"]) := by
  have h := tmdl_parser_total_with_defaults
  refine ⟨?_, ?_, ?_⟩
  · rw [h.2.2.2.1 "\tcolumn Foo" "T" "" ["\t\tisHidden"]]
    decide
  · exact h.2.2.2.2.1 "measure Foo" "T" "" (by decide)
  · have hval : findTmdlDir ⟨[], []⟩ ["proj", "model"] =
        Except.error ("TMDL definition folder not found at: " ++ pathStr ["proj", "model"]) := rfl
    rcases h.2.2.2.2.2 ⟨[], []⟩ ["proj", "model"] with ⟨dir, hdir⟩ | herr
    · rw [hval] at hdir
      cases hdir
    · exact herr

end PBIDoc
